import Mathlib

/-!
Verification of the snapshot engine of the itd-odd-save-manager repository.

The development shallowly embeds the Rust sources under `src/src-tauri/src`:
`filename_utils.rs` (naming protocol), `backup/index.rs` (persisted index),
`backup/cleanup.rs` (retention enforcement), `backup/listing.rs` (catalog),
`backup/create.rs` (snapshot creation), `backup/restore.rs` (restore) and
`backup/notes.rs` (note management).

Modelling conventions:
- Strings are `List Char` so that all parsing and formatting functions are
  structurally recursive and executable.
- File contents are abstracted to a `Nat` value plus an explicit size; the
  SHA-256 digest of `backup/hashing.rs` is an arbitrary function parameter
  `hashFn : Nat → List Char`, so no theorem may use injectivity of the hash.
- Filesystem operations are modelled on an explicit state; operations that can
  only fail through an I/O fault (copy, create_dir_all, metadata) are modelled
  on their success path, while control-flow errors the code itself raises
  (missing folder, zero restored files, reconciliation refusals) are modelled
  as `Except` values, exactly as the Rust functions return `Result`.
- The local timezone of `chrono::Local` is modelled as a fixed UTC offset, so a
  local calendar time determines the instant; a timestamp is the record `LDT`
  of calendar fields at second precision.  Negative (BCE) years, which chrono
  can parse through a leading minus sign, are outside the model; years are
  naturals, and the documented chrono behaviour of prefixing years of five or
  more digits with a plus sign is modelled.
-/

set_option linter.unusedVariables false

/-! ## Basic list and character utilities -/

/-- Association-list lookup: first value bound to the key, mirroring
`HashMap::get` on maps whose updates are modelled by `ainsert`. -/
def alookup [DecidableEq κ] (l : List (κ × α)) (k : κ) : Option α :=
  match l with
  | [] => none
  | (k', v) :: rest => if k' = k then some v else alookup rest k

/-- Association-list update: replaces the binding of the key (or appends a new
binding), mirroring `HashMap::insert`. -/
def ainsert [DecidableEq κ] (l : List (κ × α)) (k : κ) (v : α) : List (κ × α) :=
  match l with
  | [] => [(k, v)]
  | (k', v') :: rest => if k' = k then (k, v) :: rest else (k', v') :: ainsert rest k v

/-- Decimal value of a digit character, `None` for anything else. -/
def digitVal? (c : Char) : Option Nat :=
  if '0' ≤ c ∧ c ≤ '9' then some (c.toNat - 48) else none

/-- Fuel-driven helper for `natDigitsList`; structural recursion keeps kernel
reduction available for concrete evaluation. -/
def natDigitsGo : Nat → Nat → List Nat
  | 0, _ => []
  | fuel + 1, n => if n < 10 then [n] else natDigitsGo fuel (n / 10) ++ [n % 10]

/-- The decimal digits of a natural number, most significant first. -/
def natDigitsList (n : Nat) : List Nat :=
  natDigitsGo (n + 1) n

theorem natDigitsGo_congr (f1 f2 n : Nat) (h1 : n < f1) (h2 : n < f2) :
    natDigitsGo f1 n = natDigitsGo f2 n := by
  induction n using Nat.strong_induction_on generalizing f1 f2 with
  | _ n ih =>
    match f1, f2 with
    | fa + 1, fb + 1 =>
      simp only [natDigitsGo]
      split
      · rfl
      · rename_i hn
        rw [ih (n / 10) (Nat.div_lt_self (by omega) (by omega)) fa fb (by omega) (by omega)]

/-- The defining recursion of `natDigitsList`. -/
theorem natDigitsList_eq (n : Nat) :
    natDigitsList n = if n < 10 then [n] else natDigitsList (n / 10) ++ [n % 10] := by
  show natDigitsGo (n + 1) n = _
  simp only [natDigitsGo]
  split
  · rfl
  · rename_i hn
    rw [natDigitsGo_congr n (n / 10 + 1) (n / 10)
      (Nat.div_lt_self (by omega) (by omega)) (by omega)]
    rfl

/-- Decimal rendering of a natural number, mirroring the `Display` output of
Rust unsigned integers. -/
def natToDigits (n : Nat) : List Char :=
  (natDigitsList n).map Nat.digitChar

/-- Exactly `k` decimal digits of `n`, most significant first, zero padded on
the left (`n < 10 ^ k` is intended). -/
def padDigits : Nat → Nat → List Nat
  | 0, _ => []
  | k + 1, n => padDigits k (n / 10) ++ [n % 10]

/-- Zero-padded decimal rendering of width `k` (chrono `Pad::Zero` numeric
fields, for `n < 10 ^ k`). -/
def padNum (k n : Nat) : List Char :=
  (padDigits k n).map Nat.digitChar

/-- Numeric value of a digit list, most significant first. -/
def valOfDigits (ds : List Nat) : Nat :=
  ds.foldl (fun a d => a * 10 + d) 0

/-- Whether a character counts as whitespace for `str::trim` and for the
whitespace handling of chrono parsing (ASCII whitespace suffices here). -/
def isWsChar (c : Char) : Bool :=
  c = ' ' ∨ c = '\t' ∨ c = '\n' ∨ c = '\r'

/-- `str::trim`: drop whitespace from both ends. -/
def trimChars (s : List Char) : List Char :=
  ((s.dropWhile isWsChar).reverse.dropWhile isWsChar).reverse

/-- Byte-wise comparison of two character sequences, mirroring `Ord` on Rust
strings for the ASCII strings this program compares. -/
def lexCompare : List Char → List Char → Ordering
  | [], [] => .eq
  | [], _ :: _ => .lt
  | _ :: _, [] => .gt
  | a :: as, b :: bs =>
    if a.toNat < b.toNat then .lt else if b.toNat < a.toNat then .gt else lexCompare as bs

/-- Whether `pat` is an initial segment of `s` (`str::starts_with`). -/
def seqStartsWith : List Char → List Char → Bool
  | [], _ => true
  | _ :: _, [] => false
  | p :: ps, c :: cs => p = c && seqStartsWith ps cs

/-- `str::strip_prefix`: the remainder after an initial segment, if it is one. -/
def stripPre (pat s : List Char) : Option (List Char) :=
  if seqStartsWith pat s then some (s.drop pat.length) else none

/-- `str::split_once`: split at the first occurrence of the separator. -/
def splitOnceSep (sep : List Char) : List Char → Option (List Char × List Char)
  | [] => none
  | c :: rest =>
    if seqStartsWith sep (c :: rest) then some ([], (c :: rest).drop sep.length)
    else
      match splitOnceSep sep rest with
      | some (pre, post) => some (c :: pre, post)
      | none => none

/-! ## Lemmas about the utilities -/

theorem seqStartsWith_append (a b : List Char) : seqStartsWith a (a ++ b) = true := by
  induction a with
  | nil => rfl
  | cons c cs ih => simp [seqStartsWith, ih]

theorem natDigitsList_ne_nil (n : Nat) : natDigitsList n ≠ [] := by
  rw [natDigitsList_eq]
  split <;> simp

theorem natDigitsList_lt (n : Nat) : ∀ d ∈ natDigitsList n, d < 10 := by
  induction n using Nat.strong_induction_on with
  | _ n ih =>
    rw [natDigitsList_eq]
    split
    · intro d hd
      simp at hd
      omega
    · intro d hd
      rw [List.mem_append] at hd
      rcases hd with hd | hd
      · exact ih (n / 10) (Nat.div_lt_self (by omega) (by omega)) d hd
      · simp at hd
        omega

theorem valOfDigits_append_one (ds : List Nat) (d : Nat) :
    valOfDigits (ds ++ [d]) = valOfDigits ds * 10 + d := by
  simp [valOfDigits, List.foldl_append]

theorem length_natDigitsList_le (n k : Nat) (h : n < 10 ^ k) (hk : 0 < k) :
    (natDigitsList n).length ≤ k := by
  induction n using Nat.strong_induction_on generalizing k with
  | _ n ih =>
    rw [natDigitsList_eq]
    split
    · simpa using hk
    · rename_i hn
      have hk1 : 1 < k := by
        by_contra hcon
        have : k = 1 := by omega
        subst this
        simp at h
        omega
      have hdiv : n / 10 < 10 ^ (k - 1) := by
        have h10 : 10 ^ k = 10 ^ (k - 1) * 10 := by
          have : k - 1 + 1 = k := by omega
          calc 10 ^ k = 10 ^ (k - 1 + 1) := by rw [this]
          _ = 10 ^ (k - 1) * 10 := by rw [Nat.pow_succ]
        omega
      have := ih (n / 10) (Nat.div_lt_self (by omega) (by omega)) (k - 1) hdiv (by omega)
      simp only [List.length_append, List.length_cons, List.length_nil]
      omega

theorem valOfDigits_natDigitsList (n : Nat) : valOfDigits (natDigitsList n) = n := by
  induction n using Nat.strong_induction_on with
  | _ n ih =>
    rw [natDigitsList_eq]
    split
    · simp [valOfDigits]
    · rw [valOfDigits_append_one, ih (n / 10) (Nat.div_lt_self (by omega) (by omega))]
      omega

/-- Greedy scan of at most `k` leading decimal digits (chrono numeric field
scanning with a maximum width). -/
def takeDigitsCnt : Nat → List Char → (List Nat × List Char)
  | 0, s => ([], s)
  | _ + 1, [] => ([], [])
  | k + 1, c :: rest =>
    match digitVal? c with
    | some d =>
      let p := takeDigitsCnt k rest
      (d :: p.1, p.2)
    | none => ([], c :: rest)

/-- Chrono numeric item parsing: skip leading whitespace, then read between one
and `maxD` decimal digits greedily and return their value with the rest. -/
def scanNum (maxD : Nat) (s : List Char) : Option (Nat × List Char) :=
  match takeDigitsCnt maxD (s.dropWhile isWsChar) with
  | ([], _) => none
  | (ds, r) => some (valOfDigits ds, r)

theorem digitVal?_digitChar (d : Nat) (h : d < 10) :
    digitVal? (Nat.digitChar d) = some d := by
  interval_cases d <;> decide

theorem digitChar_toNat (d : Nat) (h : d < 10) :
    (Nat.digitChar d).toNat = 48 + d := by
  interval_cases d <;> decide

theorem padDigits_length (k n : Nat) : (padDigits k n).length = k := by
  induction k generalizing n with
  | zero => rfl
  | succ k ih => simp [padDigits, ih]

theorem padDigits_lt (k n : Nat) : ∀ d ∈ padDigits k n, d < 10 := by
  induction k generalizing n with
  | zero => simp [padDigits]
  | succ k ih =>
    intro d hd
    simp only [padDigits, List.mem_append, List.mem_singleton] at hd
    rcases hd with hd | hd
    · exact ih (n / 10) d hd
    · omega

theorem valOfDigits_padDigits (k n : Nat) (h : n < 10 ^ k) :
    valOfDigits (padDigits k n) = n := by
  induction k generalizing n with
  | zero => simp at h; simp [padDigits, valOfDigits, h]
  | succ k ih =>
    rw [padDigits, valOfDigits_append_one, ih (n / 10) (by
      have hpow : 10 ^ (k + 1) = 10 ^ k * 10 := Nat.pow_succ ..
      omega)]
    omega

theorem takeDigitsCnt_exact (ds : List Nat) (hall : ∀ d ∈ ds, d < 10)
    (rest : List Char) :
    takeDigitsCnt ds.length (ds.map Nat.digitChar ++ rest) = (ds, rest) := by
  induction ds with
  | nil => rfl
  | cons d ds ih =>
    have hd : d < 10 := hall d (by simp)
    have ih' := ih (fun x hx => hall x (by simp [hx]))
    simp only [List.length_cons, List.map_cons, List.cons_append, takeDigitsCnt,
      digitVal?_digitChar d hd, List.append_eq]
    simp only [List.append_eq] at ih'
    rw [ih']

theorem takeDigitsCnt_stop (k : Nat) (ds : List Nat) (hall : ∀ d ∈ ds, d < 10)
    (hlen : ds.length ≤ k) (rest : List Char)
    (hrest : ∀ c, rest.head? = some c → digitVal? c = none) :
    takeDigitsCnt k (ds.map Nat.digitChar ++ rest) = (ds, rest) := by
  induction ds generalizing k with
  | nil =>
    simp only [List.map_nil, List.nil_append]
    match k, rest with
    | 0, _ => rfl
    | k + 1, [] => rfl
    | k + 1, c :: r => simp [takeDigitsCnt, hrest c rfl]
  | cons d ds ih =>
    have hd : d < 10 := hall d (by simp)
    match k with
    | 0 => simp at hlen
    | k + 1 =>
      have ih' := ih k (fun x hx => hall x (by simp [hx])) (by simp at hlen; omega)
      simp only [List.map_cons, List.cons_append, takeDigitsCnt,
        digitVal?_digitChar d hd, List.append_eq]
      simp only [List.append_eq] at ih'
      rw [ih']

/-- Greedy unbounded decimal digit scan: chrono `scan::number` as invoked
after an explicit sign, where the effective width limit is the machine word
and never binds before the input ends. -/
def takeDigitsAll : List Char → (List Nat × List Char)
  | [] => ([], [])
  | c :: rest =>
    match digitVal? c with
    | some d =>
      let p := takeDigitsAll rest
      (d :: p.1, p.2)
    | none => ([], c :: rest)

theorem takeDigitsAll_stop (ds : List Nat) (hall : ∀ d ∈ ds, d < 10)
    (rest : List Char)
    (hrest : ∀ c, rest.head? = some c → digitVal? c = none) :
    takeDigitsAll (ds.map Nat.digitChar ++ rest) = (ds, rest) := by
  induction ds with
  | nil =>
    simp only [List.map_nil, List.nil_append]
    match rest with
    | [] => rfl
    | c :: r => simp [takeDigitsAll, hrest c rfl]
  | cons d ds ih =>
    have hd : d < 10 := hall d (by simp)
    have ih' := ih (fun x hx => hall x (by simp [hx]))
    simp only [List.map_cons, List.cons_append, takeDigitsAll,
      digitVal?_digitChar d hd, List.append_eq]
    simp only [List.append_eq] at ih'
    rw [ih']

/-! ## Naming protocol: `filename_utils.rs` -/

/-- Parsed information from a game save filename (`SaveFileInfo`). -/
structure SaveFileInfo where
  game_number : Nat
  is_bak : Bool
  deriving DecidableEq, Repr

/-- Splits at the first dot, the dot staying with the suffix
(`rest.find('.')` with the two slices taken in `parse_filename`). -/
def splitAtDot : List Char → Option (List Char × List Char)
  | [] => none
  | c :: rest =>
    if c = '.' then some ([], c :: rest)
    else
      match splitAtDot rest with
      | some (pre, post) => some (c :: pre, post)
      | none => none

/-- `str::parse::<u32>`: an optional plus sign, then only decimal digits, and
the value must fit in 32 bits. -/
def parse_u32 (s : List Char) : Option Nat :=
  let s2 := if s.head? = some '+' then s.tail else s
  if s2 ≠ [] ∧ s2.all (fun c => (digitVal? c).isSome) then
    let v := valOfDigits (s2.map (fun c => (digitVal? c).getD 0))
    if v < 2 ^ 32 then some v else none
  else none

/-- `parse_filename`: accepts `gamesave_{N}.sav` and `gamesave_{N}.sav.bak`. -/
def parse_filename (filename : List Char) : Option SaveFileInfo :=
  match stripPre "gamesave_".toList filename with
  | none => none
  | some rest =>
    match splitAtDot rest with
    | none => none
    | some (numberPart, suffix) =>
      match parse_u32 numberPart with
      | none => none
      | some n =>
        if suffix = ".sav".toList then some ⟨n, false⟩
        else if suffix = ".sav.bak".toList then some ⟨n, true⟩
        else none

/-- A local calendar time at second precision, the model of
`chrono::DateTime<Local>` under a fixed-offset timezone. -/
structure LDT where
  year : Nat
  month : Nat
  day : Nat
  hour : Nat
  minute : Nat
  second : Nat
  deriving DecidableEq, Repr

/-- Proleptic Gregorian leap year. -/
def leapYear (y : Nat) : Bool :=
  y % 4 = 0 && !(y % 100 = 0 && !(y % 400 = 0))

/-- Days in a month of the proleptic Gregorian calendar, months numbered 1-12. -/
def daysInMonth (y m : Nat) : Nat :=
  if m = 2 then (if leapYear y then 29 else 28)
  else if m = 4 ∨ m = 6 ∨ m = 9 ∨ m = 11 then 30
  else if 1 ≤ m ∧ m ≤ 12 then 31
  else 0

/-- A calendar time chrono can represent at second precision. -/
def LDT.Valid (t : LDT) : Prop :=
  1 ≤ t.month ∧ t.month ≤ 12 ∧ 1 ≤ t.day ∧ t.day ≤ daysInMonth t.year t.month ∧
    t.hour < 24 ∧ t.minute < 60 ∧ t.second < 60 ∧ t.year ≤ 262143

instance (t : LDT) : Decidable t.Valid := by
  unfold LDT.Valid
  infer_instance

/-- chrono short month names (`%b` formatting). -/
def monthAbbrev : Nat → List Char
  | 1 => "Jan".toList
  | 2 => "Feb".toList
  | 3 => "Mar".toList
  | 4 => "Apr".toList
  | 5 => "May".toList
  | 6 => "Jun".toList
  | 7 => "Jul".toList
  | 8 => "Aug".toList
  | 9 => "Sep".toList
  | 10 => "Oct".toList
  | 11 => "Nov".toList
  | 12 => "Dec".toList
  | _ => []

/-- ASCII lower casing, for the case-insensitive fixed items of chrono. -/
def lowerChar (c : Char) : Char :=
  if 'A' ≤ c ∧ c ≤ 'Z' then Char.ofNat (c.toNat + 32) else c

/-- chrono `%b` parsing: three letters matched case-insensitively. -/
def monthFromAbbrev (a b c : Char) : Option Nat :=
  match lowerChar a, lowerChar b, lowerChar c with
  | 'j', 'a', 'n' => some 1
  | 'f', 'e', 'b' => some 2
  | 'm', 'a', 'r' => some 3
  | 'a', 'p', 'r' => some 4
  | 'm', 'a', 'y' => some 5
  | 'j', 'u', 'n' => some 6
  | 'j', 'u', 'l' => some 7
  | 'a', 'u', 'g' => some 8
  | 's', 'e', 'p' => some 9
  | 'o', 'c', 't' => some 10
  | 'n', 'o', 'v' => some 11
  | 'd', 'e', 'c' => some 12
  | _, _, _ => none

def scanMonth : List Char → Option (Nat × List Char)
  | a :: b :: c :: rest => (monthFromAbbrev a b c).map (fun m => (m, rest))
  | _ => none

/-- chrono `%p` parsing: AM and PM matched case-insensitively; `true` is PM. -/
def scanAmPm : List Char → Option (Bool × List Char)
  | a :: b :: rest =>
    match lowerChar a, lowerChar b with
    | 'a', 'm' => some (false, rest)
    | 'p', 'm' => some (true, rest)
    | _, _ => none
  | _ => none

/-- chrono `%Y` formatting: zero-padded to four digits, a plus sign prefixed
when the year has five or more digits. -/
def formatYear (y : Nat) : List Char :=
  if y < 10000 then padNum 4 y else '+' :: natToDigits y

/-- The 12-hour clock number of an hour of day (`%I`). -/
def hour12 (h : Nat) : Nat :=
  if h % 12 = 0 then 12 else h % 12

/-- Timestamp rendering by the chrono format string `%d-%b-%Y %I-%M-%S %p`
(`BACKUP_TIMESTAMP_FORMAT`). -/
def formatTimestamp (t : LDT) : List Char :=
  padNum 2 t.day ++ ['-'] ++ monthAbbrev t.month ++ ['-'] ++ formatYear t.year
    ++ [' '] ++ padNum 2 (hour12 t.hour) ++ ['-'] ++ padNum 2 t.minute
    ++ ['-'] ++ padNum 2 t.second ++ [' ']
    ++ (if t.hour < 12 then ['A', 'M'] else ['P', 'M'])

/-- `format_backup_folder_name`: "Game {N} - {timestamp}" where N is the
display number `game_number + 1`, computed in wrapping u32 arithmetic. -/
def format_backup_folder_name (game_number : Nat) (timestamp : LDT) : List Char :=
  ['G', 'a', 'm', 'e', ' '] ++ natToDigits ((game_number + 1) % 2 ^ 32) ++ [' ', '-', ' ']
    ++ formatTimestamp timestamp

def skipWs (s : List Char) : List Char :=
  s.dropWhile isWsChar

/-- chrono `%Y` parsing: leading whitespace is skipped; after an explicit plus
sign the digits are consumed with no effective width limit, while without a
sign the original width applies and at most four digits are consumed.  (The
signed negative branch never matches a timestamp this program writes, and the
nonnegative calendar model leaves it unparsed.) -/
def scanYear (s : List Char) : Option (Nat × List Char) :=
  let s1 := skipWs s
  if s1.head? = some '+' then
    match takeDigitsAll s1.tail with
    | ([], _) => none
    | (ds, r) => some (valOfDigits ds, r)
  else
    match takeDigitsCnt 4 s1 with
    | ([], _) => none
    | (ds, r) => some (valOfDigits ds, r)

/-- A literal character of the format string must match exactly. -/
def litChar (c : Char) : List Char → Option (List Char)
  | c' :: rest => if c' = c then some rest else none
  | [] => none

/-- Resolution of parsed fields into a calendar time, with the range checks
chrono performs when assembling a `NaiveDateTime` from a `Parsed` value. -/
def mkLDT (y mo d h12v : Nat) (pm : Bool) (mi se : Nat) : Option LDT :=
  if 1 ≤ h12v ∧ h12v ≤ 12 ∧ mi < 60 ∧ se < 60 ∧ 1 ≤ mo ∧ mo ≤ 12 ∧ 1 ≤ d ∧
      d ≤ daysInMonth y mo ∧ y ≤ 262143 then
    some ⟨y, mo, d, (if pm then 12 else 0) + h12v % 12, mi, se⟩
  else none

/-- `NaiveDateTime::parse_from_str` with format `%d-%b-%Y %I-%M-%S %p`; the
whole input must be consumed. -/
def parseTimestamp (s : List Char) : Option LDT :=
  match scanNum 2 s with
  | none => none
  | some (d, s) =>
  match litChar '-' s with
  | none => none
  | some s =>
  match scanMonth s with
  | none => none
  | some (mo, s) =>
  match litChar '-' s with
  | none => none
  | some s =>
  match scanYear s with
  | none => none
  | some (y, s) =>
  match scanNum 2 (skipWs s) with
  | none => none
  | some (h12v, s) =>
  match litChar '-' s with
  | none => none
  | some s =>
  match scanNum 2 s with
  | none => none
  | some (mi, s) =>
  match litChar '-' s with
  | none => none
  | some s =>
  match scanNum 2 s with
  | none => none
  | some (se, s) =>
  match scanAmPm (skipWs s) with
  | none => none
  | some (pm, s) =>
  if s = [] then mkLDT y mo d h12v pm mi se else none

/-- Parsed result from a backup folder name (`BackupFolderInfo`). -/
structure BackupFolderInfo where
  game_number : Nat
  timestamp : LDT
  deriving DecidableEq, Repr

/-- `parse_backup_folder_name`: split on the first " - ", strip "Game ", parse
the display number (`saturating_sub 1` gives the slot) and the timestamp. -/
def parse_backup_folder_name (folder_name : List Char) : Option BackupFolderInfo :=
  match splitOnceSep [' ', '-', ' '] folder_name with
  | none => none
  | some (pre, date_part) =>
    match stripPre ['G', 'a', 'm', 'e', ' '] pre with
    | none => none
    | some np =>
      match parse_u32 np with
      | none => none
      | some display =>
        match parseTimestamp date_part with
        | none => none
        | some t => some ⟨display - 1, t⟩

example : parse_filename "gamesave_0.sav".toList = some ⟨0, false⟩ := by decide
example : parse_filename "gamesave_123.sav".toList = some ⟨123, false⟩ := by decide
example : parse_filename "gamesave_5.sav.bak".toList = some ⟨5, true⟩ := by decide
example : parse_filename "gamesave_abc.sav".toList = none := by decide
example : parse_filename "other_0.sav".toList = none := by decide
example : parse_filename "gamesave_0.txt".toList = none := by decide
example : parse_filename "gamesave_0".toList = none := by decide
example : parse_filename "gamesave_.sav".toList = none := by decide
example : parse_filename "gamesave_0.sav.other".toList = none := by decide

example :
    format_backup_folder_name 1 ⟨2024, 1, 25, 13, 0, 0⟩ =
      "Game 2 - 25-Jan-2024 01-00-00 PM".toList := by decide

example :
    parse_backup_folder_name "Game 2 - 25-Jan-2024 01-00-00 PM".toList =
      some ⟨1, ⟨2024, 1, 25, 13, 0, 0⟩⟩ := by decide

/-! ## Round-trip lemmas for the naming protocol -/

theorem digitChar_facts (d : Nat) (h : d < 10) :
    isWsChar (Nat.digitChar d) = false ∧ Nat.digitChar d ≠ '+' ∧
      Nat.digitChar d ≠ '-' ∧ Nat.digitChar d ≠ ' ' := by
  interval_cases d <;> decide

theorem padDigits_cons (k n : Nat) (hk : 0 < k) :
    ∃ d t, padDigits k n = d :: t ∧ d < 10 := by
  have hlen : (padDigits k n).length = k := padDigits_length k n
  match hp : padDigits k n with
  | [] => rw [hp] at hlen; simp at hlen; omega
  | d :: t => exact ⟨d, t, rfl, padDigits_lt k n d (by rw [hp]; simp)⟩

theorem natDigitsList_cons (n : Nat) :
    ∃ d t, natDigitsList n = d :: t ∧ d < 10 := by
  match hp : natDigitsList n with
  | [] => exact absurd hp (natDigitsList_ne_nil n)
  | d :: t => exact ⟨d, t, rfl, natDigitsList_lt n d (by rw [hp]; simp)⟩

theorem scanNum_pad (k n : Nat) (hk : 0 < k) (h : n < 10 ^ k) (rest : List Char) :
    scanNum k (padNum k n ++ rest) = some (n, rest) := by
  obtain ⟨d, t, hdt, hd⟩ := padDigits_cons k n hk
  have hexact := takeDigitsCnt_exact (padDigits k n) (padDigits_lt k n) rest
  rw [padDigits_length] at hexact
  have hnil : padDigits k n ≠ [] := by rw [hdt]; simp
  unfold scanNum padNum
  rw [hdt]
  simp only [List.map_cons, List.cons_append, List.dropWhile_cons,
    (digitChar_facts d hd).1, Bool.false_eq_true, if_false]
  rw [show (Nat.digitChar d :: (List.map Nat.digitChar t ++ rest)) =
      (padDigits k n).map Nat.digitChar ++ rest by rw [hdt]; simp]
  rw [hexact, hdt]
  simp [valOfDigits_padDigits k n h, hdt.symm]

theorem scanNum_pad_val (k n : Nat) (hk : 0 < k) (h : n < 10 ^ k) (rest : List Char) :
    (takeDigitsCnt k (padNum k n ++ rest)).1 = padDigits k n ∧
      (takeDigitsCnt k (padNum k n ++ rest)).2 = rest := by
  have hexact := takeDigitsCnt_exact (padDigits k n) (padDigits_lt k n) rest
  rw [padDigits_length] at hexact
  unfold padNum
  rw [hexact]
  exact ⟨rfl, rfl⟩

theorem scanYear_format (y : Nat) (hy : y ≤ 262143) (rest : List Char)
    (hrest : ∀ c, rest.head? = some c → digitVal? c = none) :
    scanYear (formatYear y ++ rest) = some (y, rest) := by
  unfold formatYear
  split
  · rename_i hsmall
    obtain ⟨d, t, hdt, hd⟩ := padDigits_cons 4 y (by omega)
    have hexact := takeDigitsCnt_exact (padDigits 4 y) (padDigits_lt 4 y) rest
    rw [padDigits_length] at hexact
    unfold scanYear skipWs padNum
    rw [hdt]
    simp only [List.map_cons, List.cons_append, List.dropWhile_cons,
      (digitChar_facts d hd).1, Bool.false_eq_true, if_false, List.head?_cons]
    rw [if_neg (by simp [(digitChar_facts d hd).2.1])]
    rw [show (Nat.digitChar d :: (List.map Nat.digitChar t ++ rest)) =
        (padDigits 4 y).map Nat.digitChar ++ rest by rw [hdt]; simp]
    rw [hexact, hdt]
    simp [valOfDigits_padDigits 4 y (by omega), hdt.symm]
  · rename_i hbig
    obtain ⟨d, t, hdt, hd⟩ := natDigitsList_cons y
    have hstop := takeDigitsAll_stop (natDigitsList y) (natDigitsList_lt y) rest hrest
    unfold scanYear skipWs natToDigits
    simp only [List.cons_append, List.dropWhile_cons, show isWsChar '+' = false by decide,
      Bool.false_eq_true, if_false, List.head?_cons, if_true, List.tail_cons]
    rw [hstop, hdt]
    simp [valOfDigits_natDigitsList y, hdt.symm]

theorem litChar_cons (c : Char) (rest : List Char) :
    litChar c (c :: rest) = some rest := by
  simp [litChar]

theorem scanMonth_abbrev (m : Nat) (h1 : 1 ≤ m) (h2 : m ≤ 12) (rest : List Char) :
    scanMonth (monthAbbrev m ++ rest) = some (m, rest) := by
  interval_cases m <;> rfl

theorem scanAmPm_am (rest : List Char) :
    scanAmPm ('A' :: 'M' :: rest) = some (false, rest) := by
  rfl

theorem scanAmPm_pm (rest : List Char) :
    scanAmPm ('P' :: 'M' :: rest) = some (true, rest) := by
  rfl

theorem daysInMonth_le (y m : Nat) : daysInMonth y m ≤ 31 := by
  unfold daysInMonth
  split
  · split <;> omega
  · split
    · omega
    · split <;> omega

theorem hour12_bounds (h : Nat) : 1 ≤ hour12 h ∧ hour12 h ≤ 12 := by
  unfold hour12
  split <;> omega

theorem hour12_mod (h : Nat) (hlt : h < 12) : hour12 h % 12 = h := by
  unfold hour12
  by_cases hz : h % 12 = 0
  · rw [if_pos hz]
    omega
  · rw [if_neg hz]
    omega

theorem hour12_mod_pm (h : Nat) (h1 : 12 ≤ h) (h2 : h < 24) :
    12 + hour12 h % 12 = h := by
  unfold hour12
  by_cases hz : h % 12 = 0
  · rw [if_pos hz]
    omega
  · rw [if_neg hz]
    omega

theorem skipWs_space_notws (c : Char) (hc : isWsChar c = false) (x : List Char) :
    skipWs (' ' :: c :: x) = c :: x := by
  unfold skipWs
  rw [List.dropWhile_cons, if_pos (by decide), List.dropWhile_cons, hc]
  simp

theorem skipWs_space_pad (k n : Nat) (hk : 0 < k) (r : List Char) :
    skipWs (' ' :: (padNum k n ++ r)) = padNum k n ++ r := by
  obtain ⟨d, t, hdt, hd⟩ := padDigits_cons k n hk
  unfold padNum
  rw [hdt]
  simp only [List.map_cons, List.cons_append]
  exact skipWs_space_notws _ (digitChar_facts d hd).1 _

/-- Specialisation of `scanYear_format` to a remainder beginning with a space,
the shape produced by the format string. -/
theorem scanYear_format_sp (y : Nat) (hy : y ≤ 262143) (x : List Char) :
    scanYear (formatYear y ++ (' ' :: x)) = some (y, ' ' :: x) := by
  refine scanYear_format y hy (' ' :: x) ?_
  intro c hc
  simp only [List.head?_cons, Option.some.injEq] at hc
  rw [← hc]
  decide

/-- Parsing inverts formatting for timestamps of valid calendar times. -/
theorem parseTimestamp_format (t : LDT) (ht : t.Valid) :
    parseTimestamp (formatTimestamp t) = some t := by
  obtain ⟨y, mo, d, h, mi, se⟩ := t
  obtain ⟨h1, h2, h3, h4, h5, h6, h7, h8⟩ := ht
  simp only at h1 h2 h3 h4 h5 h6 h7 h8
  have hdm := daysInMonth_le y mo
  have hh12 := hour12_bounds h
  unfold formatTimestamp parseTimestamp
  simp only [List.singleton_append, List.cons_append, List.append_assoc, List.nil_append]
  by_cases hampm : h < 12
  · simp only [if_pos hampm,
      scanNum_pad 2 d (by omega) (by omega), litChar_cons,
      scanMonth_abbrev mo h1 h2, scanYear_format_sp y h8,
      skipWs_space_pad 2 (hour12 h) (by omega),
      scanNum_pad 2 (hour12 h) (by omega) (by omega),
      scanNum_pad 2 mi (by omega) (by omega),
      scanNum_pad 2 se (by omega) (by omega),
      skipWs_space_notws 'A' (by decide), scanAmPm_am]
    rw [if_pos trivial]
    unfold mkLDT
    rw [if_pos (by exact ⟨hh12.1, hh12.2, h6, h7, h1, h2, h3, h4, h8⟩)]
    simp only [Option.some.injEq, LDT.mk.injEq, true_and, and_true,
      Bool.false_eq_true, if_false]
    have hrec := hour12_mod h hampm
    omega
  · simp only [if_neg hampm,
      scanNum_pad 2 d (by omega) (by omega), litChar_cons,
      scanMonth_abbrev mo h1 h2, scanYear_format_sp y h8,
      skipWs_space_pad 2 (hour12 h) (by omega),
      scanNum_pad 2 (hour12 h) (by omega) (by omega),
      scanNum_pad 2 mi (by omega) (by omega),
      scanNum_pad 2 se (by omega) (by omega),
      skipWs_space_notws 'P' (by decide), scanAmPm_pm]
    rw [if_pos trivial]
    unfold mkLDT
    rw [if_pos (by exact ⟨hh12.1, hh12.2, h6, h7, h1, h2, h3, h4, h8⟩)]
    simp only [Option.some.injEq, LDT.mk.injEq, true_and, and_true, if_true]
    have hrec := hour12_mod_pm h (by omega) h5
    omega

/-! ## Folder-name round trip -/

theorem splitOnceSep_clean (sep a b : List Char) (hsep : sep ≠ [])
    (hno : ∀ i < a.length, seqStartsWith sep ((a ++ (sep ++ b)).drop i) = false) :
    splitOnceSep sep (a ++ (sep ++ b)) = some (a, b) := by
  induction a with
  | nil =>
    simp only [List.nil_append]
    match sep, hsep with
    | s0 :: sep', _ =>
      rw [List.cons_append]
      simp only [splitOnceSep]
      rw [show s0 :: (sep' ++ b) = (s0 :: sep') ++ b from rfl, seqStartsWith_append,
        if_pos rfl, List.drop_left]
  | cons c a' ih =>
    have h0 := hno 0 (by simp)
    simp only [List.drop_zero, List.cons_append] at h0
    rw [List.cons_append]
    simp only [splitOnceSep]
    rw [h0, if_neg (by simp)]
    rw [ih (fun i hi => by
      have := hno (i + 1) (by simp; omega)
      simpa using this)]

theorem mem_natToDigits_digit (n : Nat) (c : Char) (hc : c ∈ natToDigits n) :
    ∃ d, d < 10 ∧ c = Nat.digitChar d := by
  unfold natToDigits at hc
  rw [List.mem_map] at hc
  obtain ⟨d, hd, hcd⟩ := hc
  exact ⟨d, natDigitsList_lt n d hd, hcd.symm⟩

theorem seqStartsWith_sep_digits (ds b : List Char)
    (hds : ∀ c ∈ ds, ∃ d, d < 10 ∧ c = Nat.digitChar d) (hne : ds ≠ []) :
    ∀ i < (['G', 'a', 'm', 'e', ' '] ++ ds).length,
      seqStartsWith [' ', '-', ' ']
        ((['G', 'a', 'm', 'e', ' '] ++ ds ++ ([' ', '-', ' '] ++ b)).drop i) = false := by
  intro i hi
  simp only [List.length_append, List.length_cons, List.length_nil] at hi
  match ds, hne with
  | d0 :: dt, _ =>
    obtain ⟨v0, hv0, hd0⟩ := hds d0 (by simp)
    match i with
    | 0 => simp [seqStartsWith]
    | 1 => simp [seqStartsWith]
    | 2 => simp [seqStartsWith]
    | 3 => simp [seqStartsWith]
    | 4 =>
      have hne0 : d0 ≠ '-' := by rw [hd0]; exact (digitChar_facts v0 hv0).2.2.1
      show seqStartsWith [' ', '-', ' '] (' ' :: ((d0 :: dt) ++ ([' ', '-', ' '] ++ b))) = false
      simp [seqStartsWith, Ne.symm hne0]
    | j + 5 =>
      have hj : j < (d0 :: dt).length := by simp at hi ⊢; omega
      show seqStartsWith [' ', '-', ' ']
        (((d0 :: dt) ++ ([' ', '-', ' '] ++ b)).drop j) = false
      rw [List.drop_append_of_le_length (le_of_lt hj)]
      rw [List.drop_eq_getElem_cons hj]
      have hmem : (d0 :: dt)[j] ∈ d0 :: dt := List.getElem_mem hj
      obtain ⟨v, hv, hveq⟩ := hds _ hmem
      have hnsp : (d0 :: dt)[j] ≠ ' ' := by rw [hveq]; exact (digitChar_facts v hv).2.2.2
      simp [seqStartsWith, Ne.symm hnsp]

theorem stripPre_exact (pat s : List Char) : stripPre pat (pat ++ s) = some s := by
  unfold stripPre
  rw [seqStartsWith_append, if_pos rfl, List.drop_left]

theorem parse_u32_natToDigits (n : Nat) (h : n < 2 ^ 32) :
    parse_u32 (natToDigits n) = some n := by
  obtain ⟨d, t, hdt, hd⟩ := natDigitsList_cons n
  have hds : natToDigits n = Nat.digitChar d :: t.map Nat.digitChar := by
    unfold natToDigits
    rw [hdt]
    rfl
  have hmap : (natToDigits n).map (fun c => (digitVal? c).getD 0) = natDigitsList n := by
    unfold natToDigits
    rw [List.map_map]
    have hcg : ∀ x ∈ natDigitsList n,
        ((fun c => (digitVal? c).getD 0) ∘ Nat.digitChar) x = id x := by
      intro x hx
      have hx10 := natDigitsList_lt n x hx
      simp [Function.comp, digitVal?_digitChar x hx10]
    rw [List.map_congr_left hcg, List.map_id]
  unfold parse_u32
  rw [hds]
  simp only [List.head?_cons, Option.some.injEq, (digitChar_facts d hd).2.1, if_false]
  rw [if_pos ?hall]
  case hall =>
    refine ⟨by simp, ?_⟩
    rw [List.all_eq_true]
    intro c hc
    have hc2 : c ∈ natToDigits n := by rw [hds]; exact hc
    obtain ⟨v, hv, hveq⟩ := mem_natToDigits_digit n c hc2
    rw [hveq, digitVal?_digitChar v hv]
    rfl
  rw [← hds, hmap]
  have h32 : n < 4294967296 := by omega
  simp [valOfDigits_natDigitsList, h32]

theorem natToDigits_ne_nil (n : Nat) : natToDigits n ≠ [] := by
  unfold natToDigits
  simp [natDigitsList_ne_nil]

/-- C3 (amended): for every slot `s` whose display number `s + 1` still fits in
a `u32` and every valid second-precision local calendar time `t`, parsing the
folder name produced by formatting `(s, t)` succeeds and returns exactly the
slot `s` and the timestamp `t`.  (At `s = u32::MAX` the display number wraps
to zero and the slot is not recovered, so the unrestricted claim fails.) -/
theorem C3_folder_name_roundtrip (s : Nat) (t : LDT) (hs : s + 1 < 2 ^ 32)
    (ht : t.Valid) :
    parse_backup_folder_name (format_backup_folder_name s t) = some ⟨s, t⟩ := by
  have hne : natToDigits (s + 1) ≠ [] := natToDigits_ne_nil (s + 1)
  unfold format_backup_folder_name parse_backup_folder_name
  rw [Nat.mod_eq_of_lt hs]
  rw [List.append_assoc (['G', 'a', 'm', 'e', ' '] ++ natToDigits (s + 1)) [' ', '-', ' ']
    (formatTimestamp t)]
  rw [splitOnceSep_clean [' ', '-', ' '] (['G', 'a', 'm', 'e', ' '] ++ natToDigits (s + 1))
    (formatTimestamp t) (by simp) ?hno]
  case hno =>
    exact seqStartsWith_sep_digits (natToDigits (s + 1)) (formatTimestamp t)
      (fun c hc => mem_natToDigits_digit _ c hc) hne
  simp only [stripPre_exact, parse_u32_natToDigits (s + 1) hs,
    parseTimestamp_format t ht, Nat.add_sub_cancel]

/-- Witness for C3: the round trip at slot 3 and a fixed instant, the scenario
of the testable property in the specification. -/
theorem C3_folder_name_roundtrip_witness :
    3 + 1 < 2 ^ 32 ∧ (LDT.mk 2024 1 25 13 0 0).Valid ∧
      parse_backup_folder_name (format_backup_folder_name 3 ⟨2024, 1, 25, 13, 0, 0⟩) =
        some ⟨3, ⟨2024, 1, 25, 13, 0, 0⟩⟩ :=
  ⟨by decide, by decide,
    C3_folder_name_roundtrip 3 ⟨2024, 1, 25, 13, 0, 0⟩ (by decide) (by decide)⟩

/-- C3 counterexample: at slot `u32::MAX` the display number `slot + 1` wraps
to 0 in release-mode u32 arithmetic, the folder is named "Game 0 - ...", and
parsing recovers slot 0, not the original slot, so the claim as stated (for
every slot) is false. -/
theorem C3_folder_name_roundtrip_counterexample :
    parse_backup_folder_name (format_backup_folder_name 4294967295 ⟨2024, 1, 25, 13, 0, 0⟩) =
        some ⟨0, ⟨2024, 1, 25, 13, 0, 0⟩⟩ ∧
      parse_backup_folder_name (format_backup_folder_name 4294967295 ⟨2024, 1, 25, 13, 0, 0⟩) ≠
        some ⟨4294967295, ⟨2024, 1, 25, 13, 0, 0⟩⟩ := by
  constructor
  · decide
  · decide

/-! ## Data model: `backup/data.rs` and `backup/index.rs` -/

/-- Contents and size of one file; the byte content is abstracted to a `Nat`. -/
structure FileData where
  content : Nat
  size : Nat
  deriving DecidableEq, Repr

/-- A slot's live main save file: contents plus the modification metadata that
`read_source_metadata` reads from the filesystem. -/
structure SaveFile where
  data : FileData
  modified_nanos : Nat
  modified_dt : LDT
  deriving DecidableEq, Repr

/-- `SourceMetadata` of `backup/data.rs`. -/
structure SourceMetadata where
  size : Nat
  modified_nanos : Nat
  modified_dt : LDT
  deriving DecidableEq, Repr

/-- `read_source_metadata` on an existing file (the success path). -/
def read_source_metadata (f : SaveFile) : SourceMetadata :=
  ⟨f.data.size, f.modified_nanos, f.modified_dt⟩

/-- The conventional main filename `gamesave_{n}.sav` of `build_save_paths`. -/
def mainFilename (game_number : Nat) : List Char :=
  "gamesave_".toList ++ natToDigits game_number ++ ".sav".toList

/-- The conventional sibling `gamesave_{n}.sav.bak` of `build_save_paths`. -/
def bakFilename (game_number : Nat) : List Char :=
  "gamesave_".toList ++ natToDigits game_number ++ ".sav.bak".toList

/-- `IndexEntry` of `backup/index.rs`. -/
structure IndexEntry where
  last_hash : List Char
  last_source_size : Nat
  last_source_modified : Nat
  last_backup_path : List Char
  deriving DecidableEq, Repr

/-- `BackupIndex` of `backup/index.rs`; the two hash maps are association
lists whose updates replace the existing binding. -/
structure BackupIndex where
  games : List (Nat × IndexEntry)
  notes : List (List Char × List Char)
  deriving DecidableEq, Repr

/-- A snapshot folder under the backup root: its name, its files keyed by
filename, the contents of the `.hash` marker when present and readable, and
whether the `.locked` marker is present. -/
structure SnapFolder where
  name : List Char
  files : List (List Char × FileData)
  hashFile : Option (List Char)
  locked : Bool
  deriving DecidableEq, Repr

/-- The state of one save directory: live main files keyed by slot, their
`.bak` siblings, whether the `.backups` root exists, the snapshot folders
under it, and the backup index.  The in-memory index and the `index.json`
contents are identified because every modelled index save succeeds; the
failure behaviour of saving is modelled separately at the disk level. -/
structure DirState where
  saves : List (Nat × SaveFile)
  baks : List (Nat × FileData)
  rootExists : Bool
  folders : List SnapFolder
  index : BackupIndex
  deriving DecidableEq, Repr

/-! ## Catalog: `backup/listing.rs` -/

/-- `BackupInfo` of `backup/data.rs`.  The `path` field of the Rust struct is
root-relative here and therefore coincides with `filename`; the two derived
`original_*` fields are omitted because nothing reads them. -/
structure BackupInfo where
  filename : List Char
  size : Nat
  modified : List Char
  game_number : Nat
  locked : Bool
  hash : List Char
  note : Option (List Char)
  deriving DecidableEq, Repr

/-- `DateTime::to_rfc3339` under the fixed-offset timezone model: second
precision, the constant offset suffix "+00:00", and the chrono year rendering
(zero-padded to four digits, plus sign for five or more). -/
def rfc3339 (t : LDT) : List Char :=
  formatYear t.year ++ ['-'] ++ padNum 2 t.month ++ ['-'] ++ padNum 2 t.day ++ ['T']
    ++ padNum 2 t.hour ++ [':'] ++ padNum 2 t.minute ++ [':'] ++ padNum 2 t.second
    ++ "+00:00".toList

/-- `backup_info_from_folder` of `backup/listing.rs`: `None` for an
unparsable folder name or a missing main save copy; the hash is the trimmed
`.hash` contents when requested, defaulting to the empty string. -/
def backup_info_from_folder (f : SnapFolder) (include_hash : Bool) : Option BackupInfo :=
  match parse_backup_folder_name f.name with
  | none => none
  | some info =>
    match alookup f.files (mainFilename info.game_number) with
    | none => none
    | some fd =>
      some { filename := f.name
             size := fd.size
             modified := rfc3339 info.timestamp
             game_number := info.game_number
             locked := f.locked
             hash := if include_hash then trimChars (f.hashFile.getD []) else []
             note := none }

/-- The listing sort order: `backups.sort_by(|a, b| b.modified.cmp(&a.modified))`,
so `a` may precede `b` when `b.modified` is not above `a.modified` in the
byte-wise string order. -/
def listingLe (a b : BackupInfo) : Prop :=
  lexCompare b.modified a.modified ≠ .gt

instance : DecidableRel listingLe := fun a b => by
  unfold listingLe
  infer_instance

/-- `get_backups` of `backup/listing.rs`: no backup root means an empty list;
otherwise every folder that yields a `BackupInfo` is collected, annotated with
the note stored in the index, and sorted newest-first by `modified`. -/
def get_backups (st : DirState) (include_hash : Bool) : List BackupInfo :=
  if st.rootExists then
    List.insertionSort listingLe (st.folders.filterMap (fun f =>
      (backup_info_from_folder f include_hash).map (fun info =>
        { info with note := alookup st.index.notes info.filename })))
  else []

/-! ## Retention: `backup/cleanup.rs` -/

/-- `enforce_backup_limit` of `backup/cleanup.rs`, returning the list of
backups it deletes; the Rust function then removes exactly these folders from
disk.  A limit of zero deletes nothing. -/
def enforce_backup_limit (game_number limit : Nat) (all_backups : List BackupInfo) :
    List BackupInfo :=
  if limit = 0 then []
  else
    let game_backups := all_backups.filter
      (fun b => b.game_number == game_number && !b.locked)
    if limit ≤ game_backups.length then
      let keep_count := limit - 1
      if keep_count < game_backups.length then game_backups.drop keep_count else []
    else []

/-! ## Snapshot creation: `backup/create.rs` -/

/-- `resolve_hash`: reuse the indexed hash when size and modification time
match exactly, else hash the main file; the flag is `true` when the hash was
freshly calculated. -/
def resolve_hash (hashFn : Nat → List Char) (index : BackupIndex) (game_number : Nat)
    (source : SourceMetadata) (mainContent : Nat) : List Char × Bool :=
  match alookup index.games game_number with
  | some entry =>
    if entry.last_source_size = source.size ∧
        entry.last_source_modified = source.modified_nanos then
      (entry.last_hash, false)
    else (hashFn mainContent, true)
  | none => (hashFn mainContent, true)

/-- `is_duplicate_by_index`: a duplicate when the indexed hash matches and the
pointed-to folder still exists; refreshes the entry metadata in place when the
hash was recalculated under changed metadata. -/
def is_duplicate_by_index (index : BackupIndex) (folderNames : List (List Char))
    (game_number : Nat) (hash : List Char) (calculated : Bool)
    (source : SourceMetadata) : Bool × BackupIndex :=
  match alookup index.games game_number with
  | none => (false, index)
  | some entry =>
    if entry.last_hash = hash then
      if entry.last_backup_path ∈ folderNames then
        if calculated ∧ (entry.last_source_size ≠ source.size ∨
            entry.last_source_modified ≠ source.modified_nanos) then
          (true, ⟨ainsert index.games game_number
            ⟨hash, source.size, source.modified_nanos, entry.last_backup_path⟩,
            index.notes⟩)
        else (true, index)
      else (false, index)
    else (false, index)

/-- `is_duplicate_by_content`: scan the catalog for a same-slot snapshot whose
stored hash equals the current hash; on a find, repair the index to point at
that snapshot. -/
def is_duplicate_by_content (index : BackupIndex) (game_number : Nat)
    (hash : List Char) (source : SourceMetadata) (backups : List BackupInfo) :
    Bool × BackupIndex :=
  match backups.find? (fun b => b.game_number == game_number && b.hash == hash) with
  | some b => (true, ⟨ainsert index.games game_number
      ⟨hash, source.size, source.modified_nanos, b.filename⟩, index.notes⟩)
  | none => (false, index)

/-- `create_target_dir` plus `copy_save_files` plus `write_hash_file` on the
model: create or reuse the folder of the given name (`create_dir_all` keeps
an existing directory and its other contents), overwrite the main copy and
the optional `.bak` copy, and write the hash marker. -/
def createSnapshotFolder (folders : List SnapFolder) (folder_name : List Char)
    (game_number : Nat) (mainData : FileData) (bak : Option FileData)
    (hash : List Char) : List SnapFolder :=
  let base : SnapFolder :=
    match folders.find? (fun f => f.name == folder_name) with
    | some old => old
    | none => ⟨folder_name, [], none, false⟩
  let withMain : SnapFolder :=
    { base with files := ainsert base.files (mainFilename game_number) mainData }
  let withBak : SnapFolder :=
    match bak with
    | some bd => { withMain with files := ainsert withMain.files (bakFilename game_number) bd }
    | none => withMain
  folders.filter (fun f => !(f.name == folder_name)) ++ [{ withBak with hashFile := some hash }]

/-- `perform_backup_for_game_internal` on the success path of every
filesystem operation.  `None` is the skip result (no snapshot created).
Folder creation mirrors `create_dir_all` plus copy plus hash write: an
existing same-named folder is reused, its main and bak copies overwritten and
its hash marker rewritten. -/
def perform_backup_for_game_internal (hashFn : Nat → List Char) (st : DirState)
    (game_number limit : Nat) : Option (List Char) × DirState :=
  match alookup st.saves game_number with
  | none => (none, st)
  | some sf =>
    let source := read_source_metadata sf
    let rh := resolve_hash hashFn st.index game_number source sf.data.content
    let d1 := is_duplicate_by_index st.index (st.folders.map (fun f => f.name))
      game_number rh.1 rh.2 source
    if d1.1 then (none, { st with index := d1.2 })
    else
      let st1 : DirState := { st with index := d1.2 }
      let backups := get_backups st1 true
      let d2 := is_duplicate_by_content st1.index game_number rh.1 source backups
      if d2.1 then (none, { st1 with index := d2.2 })
      else
        let to_delete := enforce_backup_limit game_number limit backups
        let folders1 := st1.folders.filter
          (fun f => !(to_delete.any (fun b => b.filename == f.name)))
        let folder_name := format_backup_folder_name game_number source.modified_dt
        let st2 : DirState :=
          { st1 with
            rootExists := true
            folders := createSnapshotFolder folders1 folder_name game_number sf.data
              (alookup st.baks game_number) rh.1
            index := ⟨ainsert st1.index.games game_number
              ⟨rh.1, source.size, source.modified_nanos, folder_name⟩,
              st1.index.notes⟩ }
        (some folder_name, st2)

/-! ## Restore: `backup/restore.rs` -/

/-- Inputs of `restore_backup`: the snapshot folder contents and name, and
whether its path lies under the target's `.backups` root (the `starts_with`
check of `update_index_after_restore`).  The folder and the target directory
are given as existing, matching the two existence preconditions the Rust
function checks first. -/
structure RestoreSource where
  name : List Char
  files : List (List Char × FileData)
  hashFile : Option (List Char)
  in_tree : Bool
  deriving DecidableEq, Repr

/-- `update_index_after_restore` of `backup/restore.rs`: refuses when the
folder name does not parse, when the folder is out of tree, or when the
restored main file is absent; otherwise writes an index entry pointing at the
restored-from folder, reading the hash marker or recomputing the hash. -/
def update_index_after_restore (hashFn : Nat → List Char) (src : RestoreSource)
    (st : DirState) : Except (List Char) Unit × DirState :=
  match parse_backup_folder_name src.name with
  | none => (.error "Backup folder name did not match expected format".toList, st)
  | some info =>
    if ¬src.in_tree then
      (.error "Backup folder is not under the target backups root".toList, st)
    else
      match alookup st.saves info.game_number with
      | none => (.error "Restored main save file was not found after restore".toList, st)
      | some sf =>
        let source := read_source_metadata sf
        let hash0 := match src.hashFile with
          | some hs => trimChars hs
          | none => []
        let hash := if hash0 = [] then hashFn sf.data.content else hash0
        (.ok (), { st with
          rootExists := true
          index := ⟨ainsert st.index.games info.game_number
            ⟨hash, source.size, source.modified_nanos, src.name⟩, st.index.notes⟩ })

/-- `restore_backup` of `backup/restore.rs`: copy every file matching the
save naming convention into the target directory, fail when none matched, and
otherwise reconcile the index best-effort (a reconciliation error is logged
and dropped). `copyMeta` is the modification metadata freshly copied files
receive from the filesystem. -/
def restoreStep (copyMeta : Nat × LDT) (acc : DirState × Bool)
    (entry : List Char × FileData) : DirState × Bool :=
  match parse_filename entry.1 with
  | some info =>
    if info.is_bak then
      ({ acc.1 with baks := ainsert acc.1.baks info.game_number entry.2 }, true)
    else
      let sf : SaveFile := ⟨entry.2, copyMeta.1, copyMeta.2⟩
      ({ acc.1 with saves := ainsert acc.1.saves info.game_number sf }, true)
  | none => acc

def restore_backup (hashFn : Nat → List Char) (src : RestoreSource)
    (copyMeta : Nat × LDT) (st : DirState) : Except (List Char) Unit × DirState :=
  let res := src.files.foldl (restoreStep copyMeta) (st, false)
  if res.2 then
    (.ok (), (update_index_after_restore hashFn src res.1).2)
  else
    (.error "No valid save files found in backup folder to restore".toList, st)

/-! ## Index persistence: `backup/index.rs` and `backup/notes.rs` -/

/-- `load_index` of `backup/index.rs` at the disk level: the file state is
`none` when `index.json` does not exist, `some none` when it exists but
cannot be read, and `some (some s)` for readable contents; `parseIndex`
stands for `serde_json::from_str`.  Every failure yields the default empty
index, never an error. -/
def load_index (parseIndex : List Char → Option BackupIndex)
    (file : Option (Option (List Char))) : BackupIndex :=
  match file with
  | none => ⟨[], []⟩
  | some none => ⟨[], []⟩
  | some (some content) =>
    match parseIndex content with
    | some index => index
    | none => ⟨[], []⟩

/-- `save_index` of `backup/index.rs`: serialization failure and write
failure are both discarded (`let _ = fs::write(...)`); the result is the new
on-disk file contents, unchanged whenever either step failed.  The function
reports nothing to its caller. -/
def save_index (ser : BackupIndex → Option (List Char)) (writeOk : Bool)
    (file : Option (Option (List Char))) (index : BackupIndex) :
    Option (Option (List Char)) :=
  match ser index with
  | some content => if writeOk then some (some content) else file
  | none => file

/-- Removal of a binding from an association-list map (`HashMap::remove`). -/
def aremove [DecidableEq κ] (l : List (κ × α)) (k : κ) : List (κ × α) :=
  l.filter (fun p => !(p.1 == k))

/-- `set_backup_note` of `backup/notes.rs` at the disk level: load the index
(`BackupStore::new`), update the notes map (empty and whitespace-only notes
remove the entry, as does `None`), save best-effort, and return `Ok`. -/
def set_backup_note (parseIndex : List Char → Option BackupIndex)
    (ser : BackupIndex → Option (List Char)) (writeOk : Bool)
    (file : Option (Option (List Char))) (folder_name : List Char)
    (note : Option (List Char)) : Except (List Char) Unit × Option (Option (List Char)) :=
  let index := load_index parseIndex file
  let index2 : BackupIndex :=
    match note with
    | some n =>
      if trimChars n = [] then ⟨index.games, aremove index.notes folder_name⟩
      else ⟨index.games, ainsert index.notes folder_name (trimChars n)⟩
    | none => ⟨index.games, aremove index.notes folder_name⟩
  (.ok (), save_index ser writeOk file index2)

/-! ## Claims about skips and index persistence -/

/-- C5: when the main save file `gamesave_{n}.sav` for the slot is absent,
snapshot creation returns the skip result (no created path) and leaves the
state untouched, whether or not the `.bak` sibling exists.  The existence
check precedes every fallible operation in
`perform_backup_for_game_internal`, so this path can produce no error. -/
theorem C5_missing_main_is_skip (hashFn : Nat → List Char) (st : DirState)
    (game_number limit : Nat) (hmain : alookup st.saves game_number = none) :
    perform_backup_for_game_internal hashFn st game_number limit = (none, st) := by
  unfold perform_backup_for_game_internal
  rw [hmain]

/-- Witness for C5: a directory holding only `gamesave_0.sav.bak` yields a
skip for slot 0 and stays unchanged. -/
theorem C5_missing_main_is_skip_witness :
    alookup (DirState.mk [] [(0, ⟨5, 1⟩)] false [] ⟨[], []⟩).saves 0 = none ∧
      perform_backup_for_game_internal natToDigits
        (DirState.mk [] [(0, ⟨5, 1⟩)] false [] ⟨[], []⟩) 0 100 =
        (none, DirState.mk [] [(0, ⟨5, 1⟩)] false [] ⟨[], []⟩) :=
  ⟨by decide, C5_missing_main_is_skip natToDigits _ 0 100 (by decide)⟩

/-- C7: loading the index is a total function into indices — it cannot return
an error — and whenever `index.json` is absent, exists but cannot be read, or
reads as content the parser rejects, the result is the empty index (no game
entries, no notes), for every parser. -/
theorem C7_index_corruption_tolerated (parseIndex : List Char → Option BackupIndex)
    (file : Option (Option (List Char)))
    (hbad : file = none ∨ file = some none ∨
      ∃ s, file = some (some s) ∧ parseIndex s = none) :
    load_index parseIndex file = ⟨[], []⟩ := by
  rcases hbad with h | h | ⟨s, hf, hp⟩
  · rw [h]
    rfl
  · rw [h]
    rfl
  · rw [hf]
    simp only [load_index, hp]

/-- Witness for C7: a present but unparsable `index.json` loads as the empty
index. -/
theorem C7_index_corruption_tolerated_witness :
    (some (some "garbage".toList) = none ∨ some (some "garbage".toList) = some none ∨
      ∃ s, some (some "garbage".toList) = some (some s) ∧
        (fun _ : List Char => (none : Option BackupIndex)) s = none) ∧
      load_index (fun _ => none) (some (some "garbage".toList)) = ⟨[], []⟩ :=
  ⟨Or.inr (Or.inr ⟨"garbage".toList, rfl, rfl⟩),
    C7_index_corruption_tolerated (fun _ => none) (some (some "garbage".toList))
      (Or.inr (Or.inr ⟨"garbage".toList, rfl, rfl⟩))⟩

/-- C9: index persistence is best-effort and silent.  `set_backup_note`
returns `Ok` for every parser, serializer, write outcome, file state and
note; when the write fails the on-disk `index.json` is unchanged, and when
serialization fails `save_index` leaves the file unchanged — in every case
the caller is told the operation succeeded. -/
theorem C9_index_save_best_effort (parseIndex : List Char → Option BackupIndex)
    (ser : BackupIndex → Option (List Char)) (writeOk : Bool)
    (file : Option (Option (List Char))) (folder_name : List Char)
    (note : Option (List Char)) :
    (set_backup_note parseIndex ser writeOk file folder_name note).1 = .ok () ∧
      (writeOk = false →
        (set_backup_note parseIndex ser writeOk file folder_name note).2 = file) ∧
      ∀ index, ser index = none → save_index ser writeOk file index = file := by
  refine ⟨rfl, ?_, ?_⟩
  · intro hw
    subst hw
    show save_index ser false file _ = file
    unfold save_index
    split
    · rfl
    · rfl
  · intro index hser
    unfold save_index
    rw [hser]

/-! ## Claim C2: retention enforcement -/

/-- C2: with the catalog given newest-first, retention enforcement with limit
`L = 0` deletes nothing; with `L > 0` and at least `L` non-locked snapshots
for the slot it deletes exactly the non-locked same-slot snapshots from index
`L - 1` onward of that newest-first ordering, so the first `L - 1` of them —
exactly `L - 1` — remain; locked snapshots and other slots are never deleted
(they are excluded from the count by the filter itself). -/
theorem C2_retention_enforcement (game_number limit : Nat)
    (all_backups : List BackupInfo) :
    (limit = 0 → enforce_backup_limit game_number limit all_backups = []) ∧
      (0 < limit →
        limit ≤ (all_backups.filter
          (fun b => b.game_number == game_number && !b.locked)).length →
        enforce_backup_limit game_number limit all_backups =
            (all_backups.filter
              (fun b => b.game_number == game_number && !b.locked)).drop (limit - 1) ∧
          (all_backups.filter
              (fun b => b.game_number == game_number && !b.locked)).take (limit - 1) ++
              enforce_backup_limit game_number limit all_backups =
            all_backups.filter (fun b => b.game_number == game_number && !b.locked) ∧
          ((all_backups.filter
              (fun b => b.game_number == game_number && !b.locked)).take (limit - 1)).length =
            limit - 1) ∧
      ∀ b ∈ enforce_backup_limit game_number limit all_backups,
        b.game_number = game_number ∧ b.locked = false := by
  refine ⟨?_, ?_, ?_⟩
  · intro h0
    unfold enforce_backup_limit
    rw [if_pos h0]
  · intro hpos hcount
    have hdrop : enforce_backup_limit game_number limit all_backups =
        (all_backups.filter
          (fun b => b.game_number == game_number && !b.locked)).drop (limit - 1) := by
      unfold enforce_backup_limit
      rw [if_neg (by omega), if_pos hcount, if_pos (by omega)]
    refine ⟨hdrop, ?_, ?_⟩
    · rw [hdrop, List.take_append_drop]
    · rw [List.length_take]
      omega
  · intro b hb
    have hmem : b ∈ all_backups.filter
        (fun b => b.game_number == game_number && !b.locked) := by
      unfold enforce_backup_limit at hb
      split at hb
      · simp at hb
      · simp only [] at hb
        split at hb
        · split at hb
          · exact List.mem_of_mem_drop hb
          · simp at hb
        · simp at hb
    have := List.mem_filter.mp hmem
    simp only [Bool.and_eq_true, beq_iff_eq, Bool.not_eq_eq_eq_not, Bool.not_true] at this
    exact ⟨this.2.1, by simpa using this.2.2⟩

/-- Witness for C2: limit 2 over three non-locked snapshots for slot 0 —
the single oldest one is deleted, the newest remains. -/
theorem C2_retention_enforcement_witness :
    (0 < 2 ∧ 2 ≤ (([⟨['a'], 1, ['3'], 0, false, [], none⟩,
        ⟨['b'], 1, ['2'], 0, false, [], none⟩,
        ⟨['c'], 1, ['1'], 0, true, [], none⟩,
        ⟨['d'], 1, ['0'], 0, false, [], none⟩] : List BackupInfo).filter
          (fun b => b.game_number == 0 && !b.locked)).length) ∧
      enforce_backup_limit 0 2
        [⟨['a'], 1, ['3'], 0, false, [], none⟩,
          ⟨['b'], 1, ['2'], 0, false, [], none⟩,
          ⟨['c'], 1, ['1'], 0, true, [], none⟩,
          ⟨['d'], 1, ['0'], 0, false, [], none⟩] =
        [⟨['b'], 1, ['2'], 0, false, [], none⟩, ⟨['d'], 1, ['0'], 0, false, [], none⟩] := by
  constructor
  · exact ⟨by decide, by decide⟩
  · have h := (C2_retention_enforcement 0 2
      [⟨['a'], 1, ['3'], 0, false, [], none⟩,
        ⟨['b'], 1, ['2'], 0, false, [], none⟩,
        ⟨['c'], 1, ['1'], 0, true, [], none⟩,
        ⟨['d'], 1, ['0'], 0, false, [], none⟩]).2.1 (by decide) (by decide)
    rw [h.1]
    decide

/-! ## Claims C6 and C10: restore -/

theorem restore_fold_state_unchanged (copyMeta : Nat × LDT)
    (files : List (List Char × FileData)) (st : DirState) (b : Bool)
    (h : ∀ e ∈ files, parse_filename e.1 = none) :
    files.foldl (restoreStep copyMeta) (st, b) = (st, b) := by
  induction files with
  | nil => rfl
  | cons e rest ih =>
    rw [List.foldl_cons,
      show restoreStep copyMeta (st, b) e = (st, b) from by
        unfold restoreStep
        rw [h e (by simp)]]
    exact ih (fun x hx => h x (by simp [hx]))

theorem restoreStep_none (copyMeta : Nat × LDT) (acc : DirState × Bool)
    (e : List Char × FileData) (h : parse_filename e.1 = none) :
    restoreStep copyMeta acc e = acc := by
  simp only [restoreStep, h]

theorem restoreStep_flag (copyMeta : Nat × LDT) (acc : DirState × Bool)
    (e : List Char × FileData) (info : SaveFileInfo)
    (h : parse_filename e.1 = some info) :
    (restoreStep copyMeta acc e).2 = true ∧
      (restoreStep copyMeta acc e).1.rootExists = acc.1.rootExists ∧
      (restoreStep copyMeta acc e).1.folders = acc.1.folders ∧
      (restoreStep copyMeta acc e).1.index = acc.1.index := by
  simp only [restoreStep, h]
  by_cases hb : info.is_bak = true
  · rw [if_pos hb]
    exact ⟨rfl, rfl, rfl, rfl⟩
  · rw [if_neg hb]
    exact ⟨rfl, rfl, rfl, rfl⟩

theorem restore_fold_flag (copyMeta : Nat × LDT) (files : List (List Char × FileData))
    (st : DirState) (b : Bool) :
    (files.foldl (restoreStep copyMeta) (st, b)).2 =
      (b || files.any (fun e => (parse_filename e.1).isSome)) := by
  induction files generalizing st b with
  | nil => simp
  | cons e rest ih =>
    rw [List.foldl_cons, List.any_cons]
    cases hp : parse_filename e.1 with
    | none =>
      rw [restoreStep_none copyMeta (st, b) e hp, ih st b]
      simp
    | some info =>
      have hflag := (restoreStep_flag copyMeta (st, b) e info hp).1
      rw [show restoreStep copyMeta (st, b) e
          = ((restoreStep copyMeta (st, b) e).1, true) from Prod.ext rfl hflag]
      rw [ih]
      simp [hp]

theorem restore_fold_frame (copyMeta : Nat × LDT) (files : List (List Char × FileData))
    (acc : DirState × Bool) :
    (files.foldl (restoreStep copyMeta) acc).1.rootExists = acc.1.rootExists ∧
      (files.foldl (restoreStep copyMeta) acc).1.folders = acc.1.folders ∧
      (files.foldl (restoreStep copyMeta) acc).1.index = acc.1.index := by
  induction files generalizing acc with
  | nil => exact ⟨rfl, rfl, rfl⟩
  | cons e rest ih =>
    rw [List.foldl_cons]
    cases hp : parse_filename e.1 with
    | none =>
      rw [restoreStep_none copyMeta acc e hp]
      exact ih acc
    | some info =>
      obtain ⟨_, f1, f2, f3⟩ := restoreStep_flag copyMeta acc e info hp
      obtain ⟨h1, h2, h3⟩ := ih (restoreStep copyMeta acc e)
      exact ⟨h1.trans f1, h2.trans f2, h3.trans f3⟩

/-- C6: restoring from a folder in which no file matches the save naming
convention returns an error and performs no mutation at all — the returned
state is exactly the input state; as soon as at least one file matches, the
call returns `Ok`, whatever the reconciliation step does (it is free to fail;
its result is dropped). -/
theorem C6_restore_zero_match_atomic (hashFn : Nat → List Char) (src : RestoreSource)
    (copyMeta : Nat × LDT) (st : DirState) :
    ((∀ e ∈ src.files, parse_filename e.1 = none) →
      restore_backup hashFn src copyMeta st =
        (.error "No valid save files found in backup folder to restore".toList, st)) ∧
      ((∃ e ∈ src.files, (parse_filename e.1).isSome) →
        (restore_backup hashFn src copyMeta st).1 = .ok ()) := by
  constructor
  · intro hall
    simp only [restore_backup,
      restore_fold_state_unchanged copyMeta src.files st false hall]
    rfl
  · intro hex
    obtain ⟨e, he, hsome⟩ := hex
    have hany : src.files.any (fun e => (parse_filename e.1).isSome) = true :=
      List.any_eq_true.mpr ⟨e, he, hsome⟩
    simp only [restore_backup, restore_fold_flag, hany, Bool.false_or, if_true]

/-- Witness for C6: a folder holding only `readme.txt` restores nothing and
errors; adding `gamesave_2.sav` makes the call succeed. -/
theorem C6_restore_zero_match_atomic_witness :
    (∀ e ∈ (RestoreSource.mk ['r'] [(['r', 'd'], ⟨7, 1⟩)] none true).files,
        parse_filename e.1 = none) ∧
      restore_backup natToDigits (RestoreSource.mk ['r'] [(['r', 'd'], ⟨7, 1⟩)] none true)
          (0, ⟨2024, 1, 1, 0, 0, 0⟩) (DirState.mk [] [] false [] ⟨[], []⟩) =
        (.error "No valid save files found in backup folder to restore".toList,
          DirState.mk [] [] false [] ⟨[], []⟩) :=
  ⟨by decide,
    (C6_restore_zero_match_atomic natToDigits
      (RestoreSource.mk ['r'] [(['r', 'd'], ⟨7, 1⟩)] none true)
      (0, ⟨2024, 1, 1, 0, 0, 0⟩) (DirState.mk [] [] false [] ⟨[], []⟩)).1 (by decide)⟩

theorem update_index_refused (hashFn : Nat → List Char) (src : RestoreSource)
    (st : DirState)
    (hbad : src.in_tree = false ∨ parse_backup_folder_name src.name = none) :
    ∃ msg, update_index_after_restore hashFn src st = (.error msg, st) := by
  rcases hbad with h | h
  · cases hp : parse_backup_folder_name src.name with
    | none =>
      simp only [update_index_after_restore, hp]
      exact ⟨_, rfl⟩
    | some info =>
      simp only [update_index_after_restore, hp, h]
      exact ⟨_, rfl⟩
  · simp only [update_index_after_restore, h]
    exact ⟨_, rfl⟩

/-- C10: when the restored-from folder is not under the target's `.backups`
root, or its name does not parse, a restore with at least one matching file
still copies the files and returns `Ok`, but reconciliation refuses and the
target's index — and everything else beyond the copied save files — is left
unchanged. -/
theorem C10_restore_out_of_tree_frame (hashFn : Nat → List Char) (src : RestoreSource)
    (copyMeta : Nat × LDT) (st : DirState)
    (hbad : src.in_tree = false ∨ parse_backup_folder_name src.name = none)
    (hmatch : ∃ e ∈ src.files, (parse_filename e.1).isSome) :
    restore_backup hashFn src copyMeta st =
        (.ok (), (src.files.foldl (restoreStep copyMeta) (st, false)).1) ∧
      (src.files.foldl (restoreStep copyMeta) (st, false)).1.index = st.index ∧
      (src.files.foldl (restoreStep copyMeta) (st, false)).1.folders = st.folders ∧
      (src.files.foldl (restoreStep copyMeta) (st, false)).1.rootExists = st.rootExists := by
  obtain ⟨e, he, hsome⟩ := hmatch
  have hany : src.files.any (fun e => (parse_filename e.1).isSome) = true :=
    List.any_eq_true.mpr ⟨e, he, hsome⟩
  obtain ⟨msg, hupd⟩ := update_index_refused hashFn src
    (src.files.foldl (restoreStep copyMeta) (st, false)).1 hbad
  refine ⟨?_, (restore_fold_frame copyMeta src.files (st, false)).2.2,
    (restore_fold_frame copyMeta src.files (st, false)).2.1,
    (restore_fold_frame copyMeta src.files (st, false)).1⟩
  simp only [restore_backup, restore_fold_flag, hany, Bool.false_or, if_true, hupd]

/-- Witness for C10: restoring `gamesave_2.sav` from an out-of-tree folder
with an unparsable name succeeds while the index stays as it was. -/
theorem C10_restore_out_of_tree_frame_witness :
    ((RestoreSource.mk ['b'] [(mainFilename 2, ⟨9, 1⟩)] none false).in_tree = false ∨
        parse_backup_folder_name
          (RestoreSource.mk ['b'] [(mainFilename 2, ⟨9, 1⟩)] none false).name = none) ∧
      (∃ e ∈ (RestoreSource.mk ['b'] [(mainFilename 2, ⟨9, 1⟩)] none false).files,
        (parse_filename e.1).isSome) ∧
      restore_backup natToDigits
          (RestoreSource.mk ['b'] [(mainFilename 2, ⟨9, 1⟩)] none false)
          (5, ⟨2024, 1, 1, 0, 0, 0⟩)
          (DirState.mk [] [] true [] ⟨[(2, ⟨['h'], 1, 1, ['p']⟩)], []⟩) =
        (.ok (), ((RestoreSource.mk ['b'] [(mainFilename 2, ⟨9, 1⟩)] none false).files.foldl
          (restoreStep (5, ⟨2024, 1, 1, 0, 0, 0⟩))
          (DirState.mk [] [] true [] ⟨[(2, ⟨['h'], 1, 1, ['p']⟩)], []⟩, false)).1) :=
  ⟨Or.inl rfl, by decide,
    (C10_restore_out_of_tree_frame natToDigits
      (RestoreSource.mk ['b'] [(mainFilename 2, ⟨9, 1⟩)] none false)
      (5, ⟨2024, 1, 1, 0, 0, 0⟩)
      (DirState.mk [] [] true [] ⟨[(2, ⟨['h'], 1, 1, ['p']⟩)], []⟩)
      (Or.inl rfl) (by decide)).1⟩

/-! ## Helper lemmas for the creation claims -/

theorem alookup_ainsert [DecidableEq κ] (l : List (κ × α)) (k : κ) (v : α) :
    alookup (ainsert l k v) k = some v := by
  induction l with
  | nil => simp [ainsert, alookup]
  | cons p rest ih =>
    obtain ⟨k', v'⟩ := p
    unfold ainsert
    by_cases hk : k' = k
    · rw [if_pos hk]
      simp [alookup]
    · rw [if_neg hk]
      unfold alookup
      rw [if_neg hk]
      exact ih

/-- Behaviour of `resolve_hash`: either the hash is freshly calculated, or
the index entry exists with exactly matching metadata and its hash is reused. -/
theorem resolve_hash_spec (hashFn : Nat → List Char) (index : BackupIndex)
    (game_number : Nat) (source : SourceMetadata) (content : Nat) :
    (resolve_hash hashFn index game_number source content
        = (hashFn content, true)) ∨
      (∃ entry, alookup index.games game_number = some entry ∧
        entry.last_source_size = source.size ∧
        entry.last_source_modified = source.modified_nanos ∧
        resolve_hash hashFn index game_number source content
          = (entry.last_hash, false)) := by
  cases he : alookup index.games game_number with
  | none =>
    left
    simp only [resolve_hash, he]
  | some entry =>
    by_cases hm : entry.last_source_size = source.size ∧
        entry.last_source_modified = source.modified_nanos
    · refine Or.inr ⟨entry, rfl, hm.1, hm.2, ?_⟩
      simp only [resolve_hash, he]
      rw [if_pos hm]
    · left
      simp only [resolve_hash, he]
      rw [if_neg hm]

/-- Behaviour of `is_duplicate_by_index`: either not a duplicate and the
index is untouched, or the entry matches the hash, points at an existing
folder, and the index is either untouched (with the metadata already equal or
the hash not recalculated) or refreshed in place on the same folder. -/
theorem dup_index_spec (index : BackupIndex) (names : List (List Char))
    (game_number : Nat) (hash : List Char) (calculated : Bool)
    (source : SourceMetadata) :
    (is_duplicate_by_index index names game_number hash calculated source
        = (false, index)) ∨
      (∃ entry, alookup index.games game_number = some entry ∧
        entry.last_hash = hash ∧ entry.last_backup_path ∈ names ∧
        ((is_duplicate_by_index index names game_number hash calculated source
            = (true, index) ∧
          (calculated = false ∨ (entry.last_source_size = source.size ∧
            entry.last_source_modified = source.modified_nanos))) ∨
         is_duplicate_by_index index names game_number hash calculated source
            = (true, ⟨ainsert index.games game_number
                ⟨hash, source.size, source.modified_nanos, entry.last_backup_path⟩,
                index.notes⟩))) := by
  cases he : alookup index.games game_number with
  | none =>
    left
    simp only [is_duplicate_by_index, he]
  | some entry =>
    by_cases hh : entry.last_hash = hash
    · by_cases hmem : entry.last_backup_path ∈ names
      · by_cases hc : calculated = true ∧ (entry.last_source_size ≠ source.size ∨
            entry.last_source_modified ≠ source.modified_nanos)
        · refine Or.inr ⟨entry, rfl, hh, hmem, Or.inr ?_⟩
          simp only [is_duplicate_by_index, he]
          rw [if_pos hh, if_pos hmem, if_pos hc]
        · refine Or.inr ⟨entry, rfl, hh, hmem, Or.inl ⟨?_, ?_⟩⟩
          · simp only [is_duplicate_by_index, he]
            rw [if_pos hh, if_pos hmem, if_neg hc]
          · by_cases hcal : calculated = true
            · right
              constructor
              · by_contra hs
                exact hc ⟨hcal, Or.inl hs⟩
              · by_contra hs
                exact hc ⟨hcal, Or.inr hs⟩
            · left
              simpa using hcal
      · left
        simp only [is_duplicate_by_index, he]
        rw [if_pos hh, if_neg hmem]
    · left
      simp only [is_duplicate_by_index, he]
      rw [if_neg hh]

/-- Behaviour of `is_duplicate_by_content`: either no catalog entry matches
and the index is untouched, or some matching catalog entry exists and the
index entry is repaired to point at the first one found. -/
theorem dup_content_spec (index : BackupIndex) (game_number : Nat)
    (hash : List Char) (source : SourceMetadata) (backups : List BackupInfo) :
    (is_duplicate_by_content index game_number hash source backups
        = (false, index)) ∨
      (∃ b ∈ backups, b.game_number = game_number ∧ b.hash = hash ∧
        is_duplicate_by_content index game_number hash source backups
          = (true, ⟨ainsert index.games game_number
              ⟨hash, source.size, source.modified_nanos, b.filename⟩,
              index.notes⟩)) := by
  cases hf : backups.find? (fun b => b.game_number == game_number && b.hash == hash) with
  | none =>
    left
    simp only [is_duplicate_by_content, hf]
  | some b =>
    have hmem := List.mem_of_find?_eq_some hf
    have hpred := List.find?_some hf
    simp only [Bool.and_eq_true, beq_iff_eq] at hpred
    refine Or.inr ⟨b, hmem, hpred.1, hpred.2, ?_⟩
    simp only [is_duplicate_by_content, hf]

theorem backup_info_filename (f : SnapFolder) (ihash : Bool) (info : BackupInfo)
    (h : backup_info_from_folder f ihash = some info) : info.filename = f.name := by
  cases hp : parse_backup_folder_name f.name with
  | none =>
    simp only [backup_info_from_folder, hp] at h
    exact Option.noConfusion h
  | some i =>
    cases hl : alookup f.files (mainFilename i.game_number) with
    | none =>
      simp only [backup_info_from_folder, hp, hl] at h
      exact Option.noConfusion h
    | some fd =>
      simp only [backup_info_from_folder, hp, hl, Option.some.injEq] at h
      rw [← h]

/-- Every catalog entry names one of the folders on disk. -/
theorem get_backups_filename_mem (st : DirState) (ihash : Bool) (b : BackupInfo)
    (hb : b ∈ get_backups st ihash) : b.filename ∈ st.folders.map (fun f => f.name) := by
  unfold get_backups at hb
  split at hb
  · have hperm := List.perm_insertionSort listingLe (st.folders.filterMap (fun f =>
      (backup_info_from_folder f ihash).map (fun info =>
        { info with note := alookup st.index.notes info.filename })))
    have hb2 := hperm.mem_iff.mp hb
    rw [List.mem_filterMap] at hb2
    obtain ⟨f, hf, heq⟩ := hb2
    cases hbi : backup_info_from_folder f ihash with
    | none =>
      rw [hbi] at heq
      simp at heq
    | some info =>
      rw [hbi] at heq
      simp only [Option.map_some', Option.some.injEq] at heq
      rw [List.mem_map]
      refine ⟨f, hf, ?_⟩
      rw [show b.filename = info.filename from by rw [← heq],
        backup_info_filename f ihash info hbi]
  · simp at hb

theorem dup_content_found (index : BackupIndex) (game_number : Nat)
    (hash : List Char) (source : SourceMetadata) (backups : List BackupInfo)
    (h : ∃ b ∈ backups, b.game_number = game_number ∧ b.hash = hash) :
    (is_duplicate_by_content index game_number hash source backups).1 = true := by
  obtain ⟨b, hb, h1, h2⟩ := h
  cases hf : backups.find? (fun b => b.game_number == game_number && b.hash == hash) with
  | none =>
    have := List.find?_eq_none.mp hf b hb
    simp [h1, h2] at this
  | some c =>
    simp only [is_duplicate_by_content, hf]

/-- C4: when the index duplicate check does not short-circuit but the catalog
holds a same-slot snapshot whose stored hash marker equals the resolved
content hash, snapshot creation returns the skip result, the folder list and
save files are untouched (only the index field changes), and the index entry
for the slot is repaired to point at such a catalog snapshot. -/
theorem C4_content_fallback_repairs_index (hashFn : Nat → List Char) (st : DirState)
    (game_number limit : Nat) (sf : SaveFile)
    (hmain : alookup st.saves game_number = some sf)
    (hno1 : (is_duplicate_by_index st.index (st.folders.map (fun f => f.name)) game_number
        (resolve_hash hashFn st.index game_number (read_source_metadata sf) sf.data.content).1
        (resolve_hash hashFn st.index game_number (read_source_metadata sf) sf.data.content).2
        (read_source_metadata sf)).1 = false)
    (hfound : ∃ b ∈ get_backups st true, b.game_number = game_number ∧
      b.hash = (resolve_hash hashFn st.index game_number
        (read_source_metadata sf) sf.data.content).1) :
    ∃ b ∈ get_backups st true, b.game_number = game_number ∧
      b.hash = (resolve_hash hashFn st.index game_number
        (read_source_metadata sf) sf.data.content).1 ∧
      b.filename ∈ st.folders.map (fun f => f.name) ∧
      perform_backup_for_game_internal hashFn st game_number limit =
        (none, DirState.mk st.saves st.baks st.rootExists st.folders
          (BackupIndex.mk (ainsert st.index.games game_number
            ⟨(resolve_hash hashFn st.index game_number
                (read_source_metadata sf) sf.data.content).1,
              sf.data.size, sf.modified_nanos, b.filename⟩)
            st.index.notes)) := by
  rcases dup_index_spec st.index (st.folders.map (fun f => f.name)) game_number
      (resolve_hash hashFn st.index game_number (read_source_metadata sf) sf.data.content).1
      (resolve_hash hashFn st.index game_number (read_source_metadata sf) sf.data.content).2
      (read_source_metadata sf) with hfi | ⟨entry, _, _, _, hbad⟩
  swap
  · rcases hbad with ⟨htrue, _⟩ | htrue <;> rw [htrue] at hno1 <;> simp at hno1
  rcases dup_content_spec st.index game_number
      (resolve_hash hashFn st.index game_number (read_source_metadata sf) sf.data.content).1
      (read_source_metadata sf) (get_backups st true) with hfc | ⟨b, hbmem, hbg, hbh, hfc⟩
  · have hfound2 := dup_content_found st.index game_number
      (resolve_hash hashFn st.index game_number (read_source_metadata sf) sf.data.content).1
      (read_source_metadata sf) (get_backups st true) hfound
    rw [hfc] at hfound2
    simp at hfound2
  · refine ⟨b, hbmem, hbg, hbh, get_backups_filename_mem st true b hbmem, ?_⟩
    simp only [perform_backup_for_game_internal, hmain, hfi, hfc]
    simp [read_source_metadata]

/-- Concrete snapshot folder for the C4 witness: a well-named folder holding
the slot-0 main copy and a hash marker equal to the current content hash. -/
def exFolder4 : SnapFolder :=
  ⟨format_backup_folder_name 0 ⟨2024, 1, 25, 13, 0, 0⟩,
    [(mainFilename 0, ⟨10, 4⟩)], some (natToDigits 10), false⟩

/-- Concrete save directory for the C4 witness: the live file matches the
snapshot content but the index is empty, the situation after a restore whose
reconciliation never ran. -/
def exSt4 : DirState :=
  ⟨[(0, ⟨⟨10, 4⟩, 111, ⟨2024, 1, 25, 13, 5, 0⟩⟩)], [], true, [exFolder4], ⟨[], []⟩⟩

/-- Witness for C4: on `exSt4`, creation skips and repairs the index to point
at the existing snapshot folder. -/
theorem C4_content_fallback_repairs_index_witness :
    alookup exSt4.saves 0 = some ⟨⟨10, 4⟩, 111, ⟨2024, 1, 25, 13, 5, 0⟩⟩ ∧
      ((is_duplicate_by_index exSt4.index (exSt4.folders.map (fun f => f.name)) 0
        (resolve_hash natToDigits exSt4.index 0
          (read_source_metadata ⟨⟨10, 4⟩, 111, ⟨2024, 1, 25, 13, 5, 0⟩⟩) 10).1
        (resolve_hash natToDigits exSt4.index 0
          (read_source_metadata ⟨⟨10, 4⟩, 111, ⟨2024, 1, 25, 13, 5, 0⟩⟩) 10).2
        (read_source_metadata ⟨⟨10, 4⟩, 111, ⟨2024, 1, 25, 13, 5, 0⟩⟩)).1 = false) ∧
      (∃ b ∈ get_backups exSt4 true, b.game_number = 0 ∧
        b.hash = (resolve_hash natToDigits exSt4.index 0
          (read_source_metadata ⟨⟨10, 4⟩, 111, ⟨2024, 1, 25, 13, 5, 0⟩⟩) 10).1 ∧
        b.filename ∈ exSt4.folders.map (fun f => f.name) ∧
        perform_backup_for_game_internal natToDigits exSt4 0 5 =
          (none, DirState.mk exSt4.saves exSt4.baks exSt4.rootExists exSt4.folders
            (BackupIndex.mk (ainsert exSt4.index.games 0
              ⟨(resolve_hash natToDigits exSt4.index 0
                  (read_source_metadata ⟨⟨10, 4⟩, 111, ⟨2024, 1, 25, 13, 5, 0⟩⟩) 10).1,
                4, 111, b.filename⟩)
              exSt4.index.notes))) :=
  ⟨by decide, by decide,
    C4_content_fallback_repairs_index natToDigits exSt4 0 5
      ⟨⟨10, 4⟩, 111, ⟨2024, 1, 25, 13, 5, 0⟩⟩ (by decide) (by decide) (by decide)⟩

/-! ## Claim C1: idempotence of snapshot creation -/

theorem createSnapshotFolder_name_mem (folders : List SnapFolder) (nm : List Char)
    (g : Nat) (md : FileData) (bak : Option FileData) (h : List Char) :
    nm ∈ (createSnapshotFolder folders nm g md bak h).map (fun f => f.name) := by
  cases hf : folders.find? (fun f => f.name == nm) with
  | none =>
    cases bak <;> simp [createSnapshotFolder, hf]
  | some old =>
    have hpred := List.find?_some hf
    simp only [beq_iff_eq] at hpred
    cases bak <;> simp [createSnapshotFolder, hf, hpred]

theorem createSnapshotFolder_unique (folders : List SnapFolder) (nm : List Char)
    (g : Nat) (md : FileData) (bak : Option FileData) (h : List Char) :
    ((createSnapshotFolder folders nm g md bak h).filter
      (fun f => f.name == nm)).length = 1 := by
  have hleft : ((folders.filter (fun f => !(f.name == nm))).filter
      (fun f => f.name == nm)) = [] := by
    rw [List.filter_filter]
    apply List.eq_nil_of_length_eq_zero
    rw [List.length_eq_zero]
    apply List.filter_eq_nil_iff.mpr
    intro f hf
    cases hname : f.name == nm <;> simp [hname]
  obtain ⟨tail, htname, heq⟩ : ∃ tail : SnapFolder, tail.name = nm ∧
      createSnapshotFolder folders nm g md bak h =
        folders.filter (fun f => !(f.name == nm)) ++ [tail] := by
    unfold createSnapshotFolder
    cases hf : folders.find? (fun f => f.name == nm) with
    | none =>
      cases bak with
      | none => exact ⟨_, rfl, rfl⟩
      | some bd => exact ⟨_, rfl, rfl⟩
    | some old =>
      have hpred := List.find?_some hf
      simp only [beq_iff_eq] at hpred
      cases bak with
      | none =>
        exact ⟨⟨old.name, ainsert old.files (mainFilename g) md, some h, old.locked⟩,
          hpred, rfl⟩
      | some bd =>
        exact ⟨⟨old.name, ainsert (ainsert old.files (mainFilename g) md) (bakFilename g) bd,
          some h, old.locked⟩, hpred, rfl⟩
  rw [heq, List.filter_append, hleft]
  simp [htname]

/-- The configuration from which the next snapshot pass takes the metadata
fast path of `resolve_hash` and skips through `is_duplicate_by_index`: the
slot's index entry carries exactly the live file's metadata and points at an
existing folder. -/
def FastPathReady (st : DirState) (game_number : Nat) : Prop :=
  ∃ sf entry, alookup st.saves game_number = some sf ∧
    alookup st.index.games game_number = some entry ∧
    entry.last_source_size = sf.data.size ∧
    entry.last_source_modified = sf.modified_nanos ∧
    entry.last_backup_path ∈ st.folders.map (fun f => f.name)

theorem skip_of_fastPathReady (hashFn : Nat → List Char) (st : DirState)
    (game_number limit : Nat) (h : FastPathReady st game_number) :
    perform_backup_for_game_internal hashFn st game_number limit = (none, st) := by
  obtain ⟨sf, entry, hmain, hentry, hsize, hmod, hmem⟩ := h
  have hrh : resolve_hash hashFn st.index game_number (read_source_metadata sf)
      sf.data.content = (entry.last_hash, false) := by
    simp only [resolve_hash, hentry]
    rw [if_pos ⟨hsize, hmod⟩]
  have hd1 : is_duplicate_by_index st.index (st.folders.map (fun f => f.name)) game_number
      entry.last_hash false (read_source_metadata sf) = (true, st.index) := by
    simp only [is_duplicate_by_index, hentry]
    rw [if_pos trivial, if_pos hmem, if_neg (by simp)]
  simp only [perform_backup_for_game_internal, hmain, hrh, hd1]
  rw [if_pos trivial]

/-- After any snapshot pass over an existing main file, the slot is in the
fast-path configuration: every exit of the pass (index duplicate, refreshed
metadata, content duplicate, or fresh creation) leaves an index entry with
the live file's metadata pointing at a folder that exists, and the live save
files themselves untouched. -/
theorem fastPathReady_after (hashFn : Nat → List Char) (st : DirState)
    (game_number limit : Nat) (sf : SaveFile)
    (hmain : alookup st.saves game_number = some sf) :
    (perform_backup_for_game_internal hashFn st game_number limit).2.saves = st.saves ∧
      FastPathReady (perform_backup_for_game_internal hashFn st game_number limit).2
        game_number := by
  rcases dup_index_spec st.index (st.folders.map (fun f => f.name)) game_number
      (resolve_hash hashFn st.index game_number (read_source_metadata sf) sf.data.content).1
      (resolve_hash hashFn st.index game_number (read_source_metadata sf) sf.data.content).2
      (read_source_metadata sf) with hfi | ⟨entry, hentry, hhash, hmem, hcase⟩
  · rcases dup_content_spec st.index game_number
        (resolve_hash hashFn st.index game_number (read_source_metadata sf) sf.data.content).1
        (read_source_metadata sf) (get_backups st true) with hfc | ⟨b, hbmem, hbg, hbh, hfc⟩
    · simp only [perform_backup_for_game_internal, hmain, hfi, hfc]
      exact ⟨rfl, sf, _, hmain, alookup_ainsert _ _ _, rfl, rfl,
        createSnapshotFolder_name_mem _ _ _ _ _ _⟩
    · simp only [perform_backup_for_game_internal, hmain, hfi, hfc]
      exact ⟨rfl, sf, _, hmain, alookup_ainsert _ _ _, rfl, rfl,
        get_backups_filename_mem st true b hbmem⟩
  · rcases hcase with ⟨heq, hmeta⟩ | heq
    · simp only [perform_backup_for_game_internal, hmain, heq]
      have hment : entry.last_source_size = sf.data.size ∧
          entry.last_source_modified = sf.modified_nanos := by
        rcases hmeta with hcalc | hm
        · rcases resolve_hash_spec hashFn st.index game_number (read_source_metadata sf)
              sf.data.content with hrh | ⟨entry0, hent0, hsz0, hmd0, hrh⟩
          · rw [hrh] at hcalc
            simp at hcalc
          · rw [hent0] at hentry
            injection hentry with hee
            rw [← hee]
            exact ⟨hsz0, hmd0⟩
        · exact ⟨hm.1, hm.2⟩
      exact ⟨rfl, sf, entry, hmain, hentry, hment.1, hment.2, hmem⟩
    · simp only [perform_backup_for_game_internal, hmain, heq]
      exact ⟨rfl, sf, _, hmain, alookup_ainsert _ _ _, rfl, rfl, hmem⟩

/-- C1: snapshot creation is idempotent.  For a slot whose main save file
exists and is unchanged between two successive passes (the pass itself never
touches the live save files), the second pass returns the skip result and
changes nothing, and whenever the first pass created a snapshot folder,
exactly one folder of that name exists afterwards. -/
theorem C1_snapshot_idempotent (hashFn : Nat → List Char) (st : DirState)
    (game_number limit : Nat) (sf : SaveFile)
    (hmain : alookup st.saves game_number = some sf) :
    perform_backup_for_game_internal hashFn
        (perform_backup_for_game_internal hashFn st game_number limit).2 game_number limit =
      (none, (perform_backup_for_game_internal hashFn st game_number limit).2) ∧
      ∀ n, (perform_backup_for_game_internal hashFn st game_number limit).1 = some n →
        ((perform_backup_for_game_internal hashFn st game_number limit).2.folders.filter
          (fun f => f.name == n)).length = 1 := by
  obtain ⟨hsaves, hready⟩ := fastPathReady_after hashFn st game_number limit sf hmain
  refine ⟨skip_of_fastPathReady hashFn _ game_number limit hready, ?_⟩
  intro n hn
  rcases dup_index_spec st.index (st.folders.map (fun f => f.name)) game_number
      (resolve_hash hashFn st.index game_number (read_source_metadata sf) sf.data.content).1
      (resolve_hash hashFn st.index game_number (read_source_metadata sf) sf.data.content).2
      (read_source_metadata sf) with hfi | ⟨entry, hentry, hhash, hmem, hcase⟩
  · rcases dup_content_spec st.index game_number
        (resolve_hash hashFn st.index game_number (read_source_metadata sf) sf.data.content).1
        (read_source_metadata sf) (get_backups st true) with hfc | ⟨b, hbmem, hbg, hbh, hfc⟩
    · simp only [perform_backup_for_game_internal, hmain, hfi, hfc] at hn ⊢
      rw [← Option.some.inj hn]
      exact createSnapshotFolder_unique _ _ _ _ _ _
    · simp only [perform_backup_for_game_internal, hmain, hfi, hfc] at hn
      exact Option.noConfusion hn
  · rcases hcase with ⟨heq, hmeta⟩ | heq
    · simp only [perform_backup_for_game_internal, hmain, heq] at hn
      exact Option.noConfusion hn
    · simp only [perform_backup_for_game_internal, hmain, heq] at hn
      exact Option.noConfusion hn

/-- Concrete save directory for the C1 witness: one main file for slot 0,
nothing backed up yet. -/
def exSt1 : DirState :=
  ⟨[(0, ⟨⟨7, 3⟩, 42, ⟨2024, 1, 25, 13, 0, 0⟩⟩)], [], false, [], ⟨[], []⟩⟩

/-- Witness for C1: on `exSt1`, the first pass creates a snapshot and the
second pass is a skip that changes nothing. -/
theorem C1_snapshot_idempotent_witness :
    alookup exSt1.saves 0 = some ⟨⟨7, 3⟩, 42, ⟨2024, 1, 25, 13, 0, 0⟩⟩ ∧
      (perform_backup_for_game_internal natToDigits
          (perform_backup_for_game_internal natToDigits exSt1 0 3).2 0 3 =
        (none, (perform_backup_for_game_internal natToDigits exSt1 0 3).2) ∧
        ∀ n, (perform_backup_for_game_internal natToDigits exSt1 0 3).1 = some n →
          ((perform_backup_for_game_internal natToDigits exSt1 0 3).2.folders.filter
            (fun f => f.name == n)).length = 1) :=
  ⟨by decide, C1_snapshot_idempotent natToDigits exSt1 0 3
    ⟨⟨7, 3⟩, 42, ⟨2024, 1, 25, 13, 0, 0⟩⟩ (by decide)⟩

/-! ## Catalog ordering: `backup/listing.rs` sort order versus chronology -/

/-- Three-way comparison of naturals, spelled out so every lemma about it is
an `if`-split. -/
def cmpNat (m n : Nat) : Ordering :=
  if m < n then .lt else if n < m then .gt else .eq

theorem cmpNat_lt {m n : Nat} (h : m < n) : cmpNat m n = .lt := by
  unfold cmpNat
  rw [if_pos h]

theorem cmpNat_gt {m n : Nat} (h : n < m) : cmpNat m n = .gt := by
  unfold cmpNat
  rw [if_neg (by omega), if_pos h]

theorem cmpNat_same (m : Nat) : cmpNat m m = .eq := by
  unfold cmpNat
  rw [if_neg (by omega), if_neg (by omega)]

theorem othen_assoc (a b c : Ordering) : (a.then b).then c = a.then (b.then c) := by
  cases a <;> cases b <;> rfl

theorem othen_eq (a : Ordering) : a.then .eq = a := by
  cases a <;> rfl

/-- Splitting a base-10 comparison into quotient and remainder comparisons. -/
theorem cmpNat_split10 (A B r1 r2 : Nat) (h1 : r1 < 10) (h2 : r2 < 10) :
    cmpNat (A * 10 + r1) (B * 10 + r2) = (cmpNat A B).then (cmpNat r1 r2) := by
  rcases Nat.lt_trichotomy A B with h | h | h
  · rw [cmpNat_lt (show A * 10 + r1 < B * 10 + r2 by omega), cmpNat_lt h]
    rfl
  · subst h
    rw [cmpNat_same A]
    show cmpNat (A * 10 + r1) (A * 10 + r2) = cmpNat r1 r2
    rcases Nat.lt_trichotomy r1 r2 with h | h | h
    · rw [cmpNat_lt (show A * 10 + r1 < A * 10 + r2 by omega), cmpNat_lt h]
    · subst h
      rw [cmpNat_same, cmpNat_same]
    · rw [cmpNat_gt (show A * 10 + r2 < A * 10 + r1 by omega), cmpNat_gt h]
  · rw [cmpNat_gt (show B * 10 + r2 < A * 10 + r1 by omega), cmpNat_gt h]
    rfl

/-- Splitting a base-100 comparison into quotient and remainder comparisons. -/
theorem cmpNat_split100 (A B r1 r2 : Nat) (h1 : r1 < 100) (h2 : r2 < 100) :
    cmpNat (A * 100 + r1) (B * 100 + r2) = (cmpNat A B).then (cmpNat r1 r2) := by
  rcases Nat.lt_trichotomy A B with h | h | h
  · rw [cmpNat_lt (show A * 100 + r1 < B * 100 + r2 by omega), cmpNat_lt h]
    rfl
  · subst h
    rw [cmpNat_same A]
    show cmpNat (A * 100 + r1) (A * 100 + r2) = cmpNat r1 r2
    rcases Nat.lt_trichotomy r1 r2 with h | h | h
    · rw [cmpNat_lt (show A * 100 + r1 < A * 100 + r2 by omega), cmpNat_lt h]
    · subst h
      rw [cmpNat_same, cmpNat_same]
    · rw [cmpNat_gt (show A * 100 + r2 < A * 100 + r1 by omega), cmpNat_gt h]
  · rw [cmpNat_gt (show B * 100 + r2 < A * 100 + r1 by omega), cmpNat_gt h]
    rfl

/-- Dropping an equal head character does not change the byte-wise comparison. -/
theorem lexCompare_cons_same (c : Char) (a b : List Char) :
    lexCompare (c :: a) (c :: b) = lexCompare a b := by
  simp only [lexCompare]
  rw [if_neg (by omega), if_neg (by omega)]

theorem lexCompare_self (s : List Char) : lexCompare s s = .eq := by
  induction s with
  | nil => rfl
  | cons c cs ih =>
    rw [lexCompare_cons_same]
    exact ih

/-- Byte-wise comparison of concatenations with equal-length first parts. -/
theorem lexCompare_append_eqlen (a : List Char) : ∀ b c d : List Char,
    a.length = b.length →
    lexCompare (a ++ c) (b ++ d) = (lexCompare a b).then (lexCompare c d) := by
  induction a with
  | nil =>
    intro b c d h
    cases b with
    | nil => rfl
    | cons y ys => simp at h
  | cons x xs ih =>
    intro b c d h
    cases b with
    | nil => simp at h
    | cons y ys =>
      simp only [List.cons_append, lexCompare]
      by_cases h1 : x.toNat < y.toNat
      · rw [if_pos h1, if_pos h1]
        rfl
      · rw [if_neg h1, if_neg h1]
        by_cases h2 : y.toNat < x.toNat
        · rw [if_pos h2, if_pos h2]
          rfl
        · rw [if_neg h2, if_neg h2]
          exact ih ys c d (by simpa using h)

/-- Swapping the arguments of the byte-wise comparison swaps the verdict. -/
theorem lexCompare_swap (x : List Char) : ∀ y : List Char,
    lexCompare y x = (lexCompare x y).swap := by
  induction x with
  | nil =>
    intro y
    cases y <;> rfl
  | cons a as ih =>
    intro y
    cases y with
    | nil => rfl
    | cons b bs =>
      simp only [lexCompare]
      by_cases hab : a.toNat < b.toNat
      · rw [if_neg (by omega), if_pos hab, if_pos hab]
        rfl
      · by_cases hba : b.toNat < a.toNat
        · rw [if_pos hba, if_neg hab, if_pos hba]
          rfl
        · rw [if_neg hba, if_neg hab, if_neg hab, if_neg hba]
          exact ih bs

theorem lexCompare_total (x y : List Char) :
    lexCompare x y ≠ .gt ∨ lexCompare y x ≠ .gt := by
  cases h : lexCompare x y with
  | lt =>
    left
    decide
  | eq =>
    left
    decide
  | gt =>
    right
    rw [lexCompare_swap x y, h]
    decide

theorem lexCompare_le_trans (x : List Char) : ∀ y z : List Char,
    lexCompare x y ≠ .gt → lexCompare y z ≠ .gt → lexCompare x z ≠ .gt := by
  induction x with
  | nil =>
    intro y z h1 h2
    cases z <;> simp [lexCompare]
  | cons a as ih =>
    intro y z h1 h2
    cases y with
    | nil => simp [lexCompare] at h1
    | cons b bs =>
      cases z with
      | nil => simp [lexCompare] at h2
      | cons c cs =>
        simp only [lexCompare] at h1 h2 ⊢
        by_cases hab : a.toNat < b.toNat
        · rw [if_pos hab] at h1
          by_cases hbc : b.toNat < c.toNat
          · rw [if_pos (show a.toNat < c.toNat by omega)]
            decide
          · rw [if_neg hbc] at h2
            by_cases hcb : c.toNat < b.toNat
            · rw [if_pos hcb] at h2
              exact absurd rfl h2
            · rw [if_pos (show a.toNat < c.toNat by omega)]
              decide
        · rw [if_neg hab] at h1
          by_cases hba : b.toNat < a.toNat
          · rw [if_pos hba] at h1
            exact absurd rfl h1
          · rw [if_neg hba] at h1
            by_cases hbc : b.toNat < c.toNat
            · rw [if_pos hbc] at h2
              rw [if_pos (show a.toNat < c.toNat by omega)]
              decide
            · rw [if_neg hbc] at h2
              by_cases hcb : c.toNat < b.toNat
              · rw [if_pos hcb] at h2
                exact absurd rfl h2
              · rw [if_neg hcb] at h2
                rw [if_neg (show ¬ a.toNat < c.toNat by omega),
                  if_neg (show ¬ c.toNat < a.toNat by omega)]
                exact ih bs cs h1 h2

theorem lexCompare_digitChar (a b : Nat) (ha : a < 10) (hb : b < 10) :
    lexCompare [Nat.digitChar a] [Nat.digitChar b] = cmpNat a b := by
  simp only [lexCompare, digitChar_toNat a ha, digitChar_toNat b hb]
  unfold cmpNat
  by_cases h1 : a < b
  · rw [if_pos (show 48 + a < 48 + b by omega), if_pos h1]
  · rw [if_neg (show ¬ 48 + a < 48 + b by omega), if_neg h1]
    by_cases h2 : b < a
    · rw [if_pos (show 48 + b < 48 + a by omega), if_pos h2]
    · rw [if_neg (show ¬ 48 + b < 48 + a by omega), if_neg h2]

/-- Comparing equal-width zero-padded renderings is comparing the numbers. -/
theorem lexCompare_pad (k : Nat) : ∀ m n : Nat, m < 10 ^ k → n < 10 ^ k →
    lexCompare (padNum k m) (padNum k n) = cmpNat m n := by
  induction k with
  | zero =>
    intro m n hm hn
    have hm0 : m = 0 := by omega
    have hn0 : n = 0 := by omega
    subst hm0
    subst hn0
    rw [cmpNat_same]
    rfl
  | succ k ih =>
    intro m n hm hn
    have hps : (10:Nat) ^ (k + 1) = 10 ^ k * 10 := by rw [Nat.pow_succ]
    have hm10 : m / 10 < 10 ^ k := by omega
    have hn10 : n / 10 < 10 ^ k := by omega
    have em : padNum (k + 1) m = padNum k (m / 10) ++ [Nat.digitChar (m % 10)] := by
      simp [padNum, padDigits]
    have en : padNum (k + 1) n = padNum k (n / 10) ++ [Nat.digitChar (n % 10)] := by
      simp [padNum, padDigits]
    rw [em, en,
      lexCompare_append_eqlen _ _ _ _ (by simp [padNum, padDigits_length]),
      ih _ _ hm10 hn10,
      lexCompare_digitChar _ _ (by omega) (by omega),
      ← cmpNat_split10 (m / 10) (n / 10) (m % 10) (n % 10) (by omega) (by omega)]
    congr 1 <;> omega

theorem lexCompare_pad4 (m n : Nat) (hm : m < 10000) (hn : n < 10000) :
    lexCompare (padNum 4 m) (padNum 4 n) = cmpNat m n :=
  lexCompare_pad 4 m n (by norm_num; omega) (by norm_num; omega)

theorem lexCompare_pad2 (m n : Nat) (hm : m < 100) (hn : n < 100) :
    lexCompare (padNum 2 m) (padNum 2 n) = cmpNat m n :=
  lexCompare_pad 2 m n (by norm_num; omega) (by norm_num; omega)

/-- The chronological sort key of a calendar time: the lexicographic value of
its six fields, each below 100 except the year. -/
def ldtKey (t : LDT) : Nat :=
  ((((t.year * 100 + t.month) * 100 + t.day) * 100 + t.hour) * 100 + t.minute)
      * 100 + t.second

/-- Field bounds under which the rfc3339 rendering is a fixed-width record:
the year fits in four digits and every other field in two. -/
def LDT.Bounded (t : LDT) : Prop :=
  t.year < 10000 ∧ t.month < 100 ∧ t.day < 100 ∧ t.hour < 100 ∧
    t.minute < 100 ∧ t.second < 100

/-- On four-digit years the byte-wise order of the rfc3339 renderings is the
chronological order of the underlying calendar times. -/
theorem lexCompare_rfc3339 (t1 t2 : LDT) (h1 : t1.Bounded) (h2 : t2.Bounded) :
    lexCompare (rfc3339 t1) (rfc3339 t2) = cmpNat (ldtKey t1) (ldtKey t2) := by
  obtain ⟨hy1, hmo1, hd1, hh1, hmi1, hs1⟩ := h1
  obtain ⟨hy2, hmo2, hd2, hh2, hmi2, hs2⟩ := h2
  have e1 : rfc3339 t1 = padNum 4 t1.year ++ ('-' :: (padNum 2 t1.month ++
      ('-' :: (padNum 2 t1.day ++ ('T' :: (padNum 2 t1.hour ++
      (':' :: (padNum 2 t1.minute ++ (':' :: (padNum 2 t1.second ++
      "+00:00".toList)))))))))) := by
    rw [rfc3339, formatYear, if_pos hy1]
    simp [List.append_assoc]
  have e2 : rfc3339 t2 = padNum 4 t2.year ++ ('-' :: (padNum 2 t2.month ++
      ('-' :: (padNum 2 t2.day ++ ('T' :: (padNum 2 t2.hour ++
      (':' :: (padNum 2 t2.minute ++ (':' :: (padNum 2 t2.second ++
      "+00:00".toList)))))))))) := by
    rw [rfc3339, formatYear, if_pos hy2]
    simp [List.append_assoc]
  rw [e1, e2,
    lexCompare_append_eqlen _ _ _ _ (by simp [padNum, padDigits_length]),
    lexCompare_pad4 _ _ hy1 hy2, lexCompare_cons_same,
    lexCompare_append_eqlen _ _ _ _ (by simp [padNum, padDigits_length]),
    lexCompare_pad2 _ _ hmo1 hmo2, lexCompare_cons_same,
    lexCompare_append_eqlen _ _ _ _ (by simp [padNum, padDigits_length]),
    lexCompare_pad2 _ _ hd1 hd2, lexCompare_cons_same,
    lexCompare_append_eqlen _ _ _ _ (by simp [padNum, padDigits_length]),
    lexCompare_pad2 _ _ hh1 hh2, lexCompare_cons_same,
    lexCompare_append_eqlen _ _ _ _ (by simp [padNum, padDigits_length]),
    lexCompare_pad2 _ _ hmi1 hmi2, lexCompare_cons_same,
    lexCompare_append_eqlen _ _ _ _ (by simp [padNum, padDigits_length]),
    lexCompare_pad2 _ _ hs1 hs2, lexCompare_self, othen_eq]
  unfold ldtKey
  rw [cmpNat_split100 _ _ _ _ hs1 hs2,
    cmpNat_split100 _ _ _ _ hmi1 hmi2,
    cmpNat_split100 _ _ _ _ hh1 hh2,
    cmpNat_split100 _ _ _ _ hd1 hd2,
    cmpNat_split100 _ _ _ _ hmo1 hmo2]
  simp only [othen_assoc]

/-- The calendar time that chrono field resolution accepts has all fields
except the year below 100, and its year is the parsed year. -/
theorem mkLDT_bounds (y mo d h12v : Nat) (pm : Bool) (mi se : Nat) (t : LDT)
    (h : mkLDT y mo d h12v pm mi se = some t) :
    t.year = y ∧ t.month < 100 ∧ t.day < 100 ∧ t.hour < 100 ∧ t.minute < 100 ∧
      t.second < 100 := by
  unfold mkLDT at h
  split at h
  · rename_i hc
    obtain ⟨h1, h2, h3, h4, h5, h6, h7, h8, h9⟩ := hc
    injection h with h0
    subst h0
    have hdm := daysInMonth_le y mo
    refine ⟨rfl, show mo < 100 by omega, show d < 100 by omega, ?_,
      show mi < 100 by omega, show se < 100 by omega⟩
    show (if pm then 12 else 0) + h12v % 12 < 100
    cases pm
    · exact show 0 + h12v % 12 < 100 by omega
    · exact show 12 + h12v % 12 < 100 by omega
  · exact Option.noConfusion h

/-- Any timestamp accepted by the naming-protocol parser has all fields
except the year below 100. -/
theorem parseTimestamp_bounds (s : List Char) (t : LDT) (h : parseTimestamp s = some t) :
    t.month < 100 ∧ t.day < 100 ∧ t.hour < 100 ∧ t.minute < 100 ∧ t.second < 100 := by
  unfold parseTimestamp at h
  repeat' split at h
  all_goals first
    | exact Option.noConfusion h
    | exact (mkLDT_bounds _ _ _ _ _ _ _ _ h).2

/-- Any folder-name parse yields a timestamp with all fields except the year
below 100. -/
theorem parse_folder_timestamp_bounds (s : List Char) (info : BackupFolderInfo)
    (h : parse_backup_folder_name s = some info) :
    info.timestamp.month < 100 ∧ info.timestamp.day < 100 ∧
      info.timestamp.hour < 100 ∧ info.timestamp.minute < 100 ∧
      info.timestamp.second < 100 := by
  unfold parse_backup_folder_name at h
  cases h1 : splitOnceSep [' ', '-', ' '] s with
  | none =>
    simp only [h1] at h
    exact Option.noConfusion h
  | some pr =>
    obtain ⟨pre, date_part⟩ := pr
    simp only [h1] at h
    cases h2 : stripPre ['G', 'a', 'm', 'e', ' '] pre with
    | none =>
      simp only [h2] at h
      exact Option.noConfusion h
    | some np =>
      simp only [h2] at h
      cases h3 : parse_u32 np with
      | none =>
        simp only [h3] at h
        exact Option.noConfusion h
      | some display =>
        simp only [h3] at h
        cases h4 : parseTimestamp date_part with
        | none =>
          simp only [h4] at h
          exact Option.noConfusion h
        | some tt =>
          simp only [h4, Option.some.injEq] at h
          subst h
          exact parseTimestamp_bounds _ _ h4

instance : IsTotal BackupInfo listingLe :=
  ⟨fun a b => lexCompare_total b.modified a.modified⟩

instance : IsTrans BackupInfo listingLe :=
  ⟨fun a b c hab hbc => lexCompare_le_trans c.modified b.modified a.modified hbc hab⟩

/-- The catalog comes out of `get_backups` pairwise ordered by the sort
comparator. -/
theorem get_backups_pairwise (st : DirState) (ihash : Bool) :
    (get_backups st ihash).Pairwise listingLe := by
  unfold get_backups
  split
  · exact List.sorted_insertionSort listingLe _
  · exact List.Pairwise.nil

/-- Every catalog entry records the rfc3339 rendering of the timestamp parsed
from a disk folder bearing its filename. -/
theorem get_backups_modified (st : DirState) (ihash : Bool) (b : BackupInfo)
    (hb : b ∈ get_backups st ihash) :
    ∃ f ∈ st.folders, f.name = b.filename ∧
      ∃ info, parse_backup_folder_name b.filename = some info ∧
        b.modified = rfc3339 info.timestamp := by
  unfold get_backups at hb
  split at hb
  · have hperm := List.perm_insertionSort listingLe (st.folders.filterMap (fun f =>
      (backup_info_from_folder f ihash).map (fun info =>
        { info with note := alookup st.index.notes info.filename })))
    have hb2 := hperm.mem_iff.mp hb
    rw [List.mem_filterMap] at hb2
    obtain ⟨f, hf, heq⟩ := hb2
    cases hbi : backup_info_from_folder f ihash with
    | none =>
      rw [hbi] at heq
      simp at heq
    | some info =>
      rw [hbi] at heq
      simp only [Option.map_some', Option.some.injEq] at heq
      cases hp : parse_backup_folder_name f.name with
      | none =>
        simp only [backup_info_from_folder, hp] at hbi
        exact Option.noConfusion hbi
      | some i =>
        cases hl : alookup f.files (mainFilename i.game_number) with
        | none =>
          simp only [backup_info_from_folder, hp, hl] at hbi
          exact Option.noConfusion hbi
        | some fd =>
          simp only [backup_info_from_folder, hp, hl, Option.some.injEq] at hbi
          subst hbi
          subst heq
          exact ⟨f, hf, rfl, i, hp, rfl⟩
  · simp at hb

/-- C8 (amended): provided every snapshot folder whose name parses under the
naming protocol carries a timestamp with year at most 9999, the catalog
returned by `get_backups` is newest-first by folder-name timestamp: for any
earlier entry `a` and later entry `b`, the timestamp parsed from the later
entry's folder name is not newer than the timestamp parsed from the earlier
entry's.  The restriction is needed: the sort compares the rfc3339 renderings
byte-wise, and chrono renders years of five or more digits with a leading
plus sign, which sorts below every digit; see the counterexample. -/
theorem C8_catalog_newest_first (st : DirState) (ihash : Bool)
    (hyears : ∀ f ∈ st.folders, ∀ info, parse_backup_folder_name f.name = some info →
      info.timestamp.year ≤ 9999) :
    (get_backups st ihash).Pairwise (fun a b =>
      ∀ ia ib, parse_backup_folder_name a.filename = some ia →
        parse_backup_folder_name b.filename = some ib →
        ldtKey ib.timestamp ≤ ldtKey ia.timestamp) := by
  refine (get_backups_pairwise st ihash).imp_of_mem ?_
  intro a b ha hb hab ia ib hia hib
  obtain ⟨fa, hfa, hna, ia2, hpa, hma⟩ := get_backups_modified st ihash a ha
  obtain ⟨fb, hfb, hnb, ib2, hpb, hmb⟩ := get_backups_modified st ihash b hb
  rw [hpa] at hia
  rw [hpb] at hib
  have hia2 : ia2 = ia := Option.some.inj hia
  have hib2 : ib2 = ib := Option.some.inj hib
  subst hia2
  subst hib2
  have hyA : ia2.timestamp.year ≤ 9999 := hyears fa hfa ia2 (by rw [hna]; exact hpa)
  have hyB : ib2.timestamp.year ≤ 9999 := hyears fb hfb ib2 (by rw [hnb]; exact hpb)
  obtain ⟨hmo1, hd1, hh1, hmi1, hs1⟩ := parse_folder_timestamp_bounds _ _ hpa
  obtain ⟨hmo2, hd2, hh2, hmi2, hs2⟩ := parse_folder_timestamp_bounds _ _ hpb
  have hBa : ia2.timestamp.Bounded := ⟨by omega, hmo1, hd1, hh1, hmi1, hs1⟩
  have hBb : ib2.timestamp.Bounded := ⟨by omega, hmo2, hd2, hh2, hmi2, hs2⟩
  have hlex : lexCompare (rfc3339 ib2.timestamp) (rfc3339 ia2.timestamp) ≠ .gt := by
    rw [← hmb, ← hma]
    exact hab
  rw [lexCompare_rfc3339 _ _ hBb hBa] at hlex
  by_cases hlt : ldtKey ia2.timestamp < ldtKey ib2.timestamp
  · rw [cmpNat_gt hlt] at hlex
    exact absurd rfl hlex
  · omega

/-- Snapshot folder named with the last second of year 9999, for C8. -/
def exFolder9999 : SnapFolder :=
  ⟨"Game 1 - 31-Dec-9999 11-59-59 PM".toList,
    [("gamesave_0.sav".toList, ⟨1, 1⟩)], none, false⟩

/-- Snapshot folder named with the first second of year 10000, for C8.  Its
name is exactly what `format_backup_folder_name` produces for that instant:
chrono renders the five-digit year with a leading plus sign. -/
def exFolder10000 : SnapFolder :=
  ⟨"Game 1 - 01-Jan-+10000 12-00-00 AM".toList,
    [("gamesave_0.sav".toList, ⟨2, 1⟩)], none, false⟩

/-- Save directory holding the two snapshots either side of year 10000. -/
def exSt8 : DirState :=
  ⟨[], [], true, [exFolder9999, exFolder10000], ⟨[], []⟩⟩

/-- Counterexample to the unamended C8: with snapshots timestamped at the last
second of year 9999 and the first second of year 10000 — the latter carrying
the folder name the formatter itself emits, with the plus-signed year chrono
writes for five digits — both folder names parse, yet the catalog lists the
year-9999 snapshot first although its folder-name timestamp is strictly
older, because "9999-12-31T23:59:59+00:00" is byte-wise above
"+10000-01-01T00:00:00+00:00". -/
theorem C8_catalog_newest_first_counterexample :
    format_backup_folder_name 0 ⟨10000, 1, 1, 0, 0, 0⟩ =
        "Game 1 - 01-Jan-+10000 12-00-00 AM".toList ∧
      (get_backups exSt8 true).map (fun b => b.filename) =
        ["Game 1 - 31-Dec-9999 11-59-59 PM".toList,
          "Game 1 - 01-Jan-+10000 12-00-00 AM".toList] ∧
      ∃ ia ib,
        parse_backup_folder_name "Game 1 - 31-Dec-9999 11-59-59 PM".toList = some ia ∧
          parse_backup_folder_name "Game 1 - 01-Jan-+10000 12-00-00 AM".toList = some ib ∧
          ldtKey ia.timestamp < ldtKey ib.timestamp := by
  refine ⟨by decide, by decide, ⟨0, ⟨9999, 12, 31, 23, 59, 59⟩⟩, ⟨0, ⟨10000, 1, 1, 0, 0, 0⟩⟩,
    by decide, by decide, by decide⟩

/-- Snapshot folder of 25 Jan 2024, for the C8 witness. -/
def exFolderA : SnapFolder :=
  ⟨"Game 1 - 25-Jan-2024 01-00-00 PM".toList,
    [("gamesave_0.sav".toList, ⟨1, 1⟩)], none, false⟩

/-- Snapshot folder of 24 Jan 2024, for the C8 witness. -/
def exFolderB : SnapFolder :=
  ⟨"Game 1 - 24-Jan-2024 01-00-00 PM".toList,
    [("gamesave_0.sav".toList, ⟨2, 1⟩)], none, false⟩

/-- Save directory with two four-digit-year snapshots, for the C8 witness. -/
def exSt8w : DirState :=
  ⟨[], [], true, [exFolderA, exFolderB], ⟨[], []⟩⟩

/-- Witness for C8 on `exSt8w`: both folder names carry four-digit years, and
the catalog is pairwise newest-first by folder-name timestamp. -/
theorem C8_catalog_newest_first_witness :
    (∀ f ∈ exSt8w.folders, ∀ info, parse_backup_folder_name f.name = some info →
        info.timestamp.year ≤ 9999) ∧
      (get_backups exSt8w true).Pairwise (fun a b =>
        ∀ ia ib, parse_backup_folder_name a.filename = some ia →
          parse_backup_folder_name b.filename = some ib →
          ldtKey ib.timestamp ≤ ldtKey ia.timestamp) := by
  have hyears : ∀ f ∈ exSt8w.folders, ∀ info,
      parse_backup_folder_name f.name = some info → info.timestamp.year ≤ 9999 := by
    intro f hf info hinfo
    simp only [exSt8w, List.mem_cons, List.not_mem_nil, or_false] at hf
    rcases hf with rfl | rfl
    · rw [show parse_backup_folder_name exFolderA.name =
          some ⟨0, ⟨2024, 1, 25, 13, 0, 0⟩⟩ from by decide] at hinfo
      injection hinfo with h0
      subst h0
      decide
    · rw [show parse_backup_folder_name exFolderB.name =
          some ⟨0, ⟨2024, 1, 24, 13, 0, 0⟩⟩ from by decide] at hinfo
      injection hinfo with h0
      subst h0
      decide
  exact ⟨hyears, C8_catalog_newest_first exSt8w true hyears⟩
